import Mathlib

/-!
# Verification of the `projectcloner` export pipeline

Shallow embedding of `src/project_cloner.py` (the `CloneThread` worker and the
`sanitize_filename` helper).  The worker is a sequential pipeline acting on a
filesystem; we model it as a state-passing computation
`St → Option α × St × List Event` where
* the `Option` result is `none` when a Python exception is propagating,
* `St` carries the filesystem, the `self.temp_dir` attribute, the archive
  written so far, the manifest record, and a fault oracle `faults : Nat → Bool`
  (together with a counter `k`) deciding whether the `k`-th fallible
  filesystem/host operation of the run raises — quantifying over all oracles
  covers every error path,
* the `List Event` collects the Qt signals emitted in order
  (`progress_updated`, `status_updated`, `finished_signal`).

Python floating point in the progress formula `int(10 + (i / total) * 80)` is
modelled by exact rational truncation, which for nonnegative values is
`10 + (80 * i) / total` in natural-number division.
-/

namespace ProjectCloner

/-! ## Python `os.path` helpers (posixpath), modelled on `List Char` -/

/-- `os.path.basename`: the part of the path after the last `'/'`. -/
def basename (p : String) : String :=
  String.mk ((p.data.reverse.takeWhile (fun c => c ≠ '/')).reverse)

/-- `os.path.dirname`: everything up to the last `'/'`; the result is stripped
of trailing slashes unless it consists only of slashes (CPython `posixpath`). -/
def dirname (p : String) : String :=
  let head := (p.data.reverse.dropWhile (fun c => c ≠ '/')).reverse
  if head.isEmpty || head.all (fun c => c = '/') then String.mk head
  else String.mk ((head.reverse.dropWhile (fun c => c = '/')).reverse)

/-- `os.path.join` for two components (CPython `posixpath.join`). -/
def joinPath (a b : String) : String :=
  if b.data.take 1 = ['/'] then b
  else if a = "" || a.data.getLast? = some '/' then a ++ b
  else a ++ "/" ++ b

/-- Python `str.startswith`, as a prefix test on the character sequence. -/
def pyStartsWith (s pre : String) : Bool :=
  pre.data.isPrefixOf s.data

/-- `os.path.splitext` (CPython): split off the extension beginning at the last
dot after the last slash, unless the basename up to that dot is made of dots
only (so `".bashrc"` has no extension). -/
def splitext (p : String) : String × String :=
  let cs := p.data
  let sepIdx : Option Nat :=
    (cs.reverse.findIdx? (fun c => c = '/')).map (fun r => cs.length - 1 - r)
  let dotIdx : Option Nat :=
    (cs.reverse.findIdx? (fun c => c = '.')).map (fun r => cs.length - 1 - r)
  match dotIdx with
  | none => (p, "")
  | some d =>
    let f := match sepIdx with
      | none => 0
      | some sp => sp + 1
    if f ≤ d ∧ ((cs.drop f).take (d - f)).any (fun c => c ≠ '.') then
      (String.mk (cs.take d), String.mk (cs.drop d))
    else (p, "")

/-- `sanitize_filename` from `src/project_cloner.py`:
`"".join(c if c.isalnum() or c in (' ', '_', '-') else '_' for c in name)`.
`str.isalnum` is modelled on the ASCII range by `Char.isAlphanum`. -/
def sanitize_filename (name : String) : String :=
  String.mk (name.data.map (fun c =>
    if c.isAlphanum || c = ' ' || c = '_' || c = '-' then c else '_'))

/-! ## Filesystem model -/

/-- A filesystem: the set (as a duplicate-free-by-construction list, in
creation order) of regular files and of directories. -/
structure FS where
  files : List String
  dirs : List String
deriving DecidableEq, Repr

/-- `os.path.isfile`. -/
def FS.isFile (fs : FS) (p : String) : Bool := decide (p ∈ fs.files)

/-- `os.path.isdir`. -/
def FS.isDir (fs : FS) (p : String) : Bool := decide (p ∈ fs.dirs)

/-- `os.path.exists`. -/
def FS.pathExists (fs : FS) (p : String) : Bool := fs.isFile p || fs.isDir p

/-- Create (or overwrite) a regular file. -/
def FS.addFile (fs : FS) (p : String) : FS :=
  if p ∈ fs.files then fs else { fs with files := fs.files ++ [p] }

/-- Create a directory. -/
def FS.mkdir (fs : FS) (p : String) : FS :=
  if p ∈ fs.dirs then fs else { fs with dirs := fs.dirs ++ [p] }

/-- `os.listdir d`: the names of the entries whose parent directory is `d`. -/
def FS.listdir (fs : FS) (d : String) : List String :=
  (fs.files ++ fs.dirs).filterMap
    (fun p => if dirname p = d then some (basename p) else none)

/-- `p` is the path `d` itself or lies strictly below the directory `d`. -/
def isUnder (d p : String) : Bool :=
  decide (p = d) || (d ++ "/").data.isPrefixOf p.data

/-- `shutil.rmtree d`: remove `d` and everything below it. -/
def FS.removeTree (fs : FS) (d : String) : FS :=
  { files := fs.files.filter (fun p => !(isUnder d p)),
    dirs := fs.dirs.filter (fun p => !(isUnder d p)) }

/-! ## Events, manifest, layers, configuration -/

/-- The Qt signals emitted by `CloneThread`: `progress_updated(int)`,
`status_updated(str)`, `finished_signal(bool, str)`. -/
inductive Event where
  | progress (n : Nat)
  | status (msg : String)
  | finished (ok : Bool) (msg : String)
deriving DecidableEq, Repr

/-- The manifest record written to `metadata.json`. -/
structure Metadata where
  created : String
  qgis_version : String
  layer_count : Nat
  include_data : Bool
deriving DecidableEq, Repr

/-- A QGIS map layer as seen by the worker: display name, source locator,
its `isinstance` classification, and whether the host's
`QgsLayerDefinition.writeLayer` call would succeed on it. -/
structure Layer where
  name : String
  source : String
  isVector : Bool
  isRaster : Bool
  defWriteOk : Bool
deriving DecidableEq, Repr

/-- The inputs of one run: constructor arguments of `CloneThread` plus the
read-only host environment (`QgsProject.instance()`, `hasattr` probe,
the fresh name `tempfile.mkdtemp` would produce, clock and version). -/
structure Config where
  output_path : String
  include_data : Bool
  projectFile : String
  layers : List Layer
  hasWriteLayer : Bool
  tempName : String
  created : String
  qgisVersion : String

/-- The mutable state of a run. -/
structure St where
  fs : FS
  tempDir : Option String
  archive : Option (List String)
  metadataOut : Option Metadata
  k : Nat
  faults : Nat → Bool

/-! ## The effect monad -/

/-- A worker computation: from a state, produce an optional result (`none`
when an exception is propagating), the new state, and the emitted events. -/
def M (α : Type) : Type := St → Option α × St × List Event

def M.pure {α : Type} (a : α) : M α := fun s => (some a, s, [])

def M.bind {α β : Type} (x : M α) (f : α → M β) : M β := fun s =>
  match x s with
  | (some a, s1, ev1) =>
    match f a s1 with
    | (r, s2, ev2) => (r, s2, ev1 ++ ev2)
  | (none, s1, ev1) => (none, s1, ev1)

instance : Monad M where
  pure := M.pure
  bind := M.bind

@[simp] theorem M.bind_def {α β : Type} (x : M α) (f : α → M β) :
    x >>= f = M.bind x f := rfl

@[simp] theorem M.pure_def {α : Type} (a : α) : (Pure.pure a : M α) = M.pure a := rfl

/-- Emit a Qt signal. -/
def emit (e : Event) : M Unit := fun s => (some (), s, [e])

/-- Read the current state (used for `os.path` queries). -/
def getSt : M St := fun s => (some s, s, [])

/-- Update the state without touching the filesystem (attribute assignment). -/
def modifySt (f : St → St) : M Unit := fun s => (some (), f s, [])

/-- Perform the `k`-th fallible filesystem/host operation of the run.  The
oracle decides whether it raises; the operation itself may also raise
(`f s = none`, e.g. a missing source file). -/
def attemptGet {α : Type} (f : St → Option (α × St)) : M α := fun s =>
  if s.faults s.k then (none, { s with k := s.k + 1 }, [])
  else
    match f s with
    | none => (none, { s with k := s.k + 1 }, [])
    | some (a, s1) => (some a, { s1 with k := s.k + 1 }, [])

/-- `try: x except Exception: h` — the handler runs on any raise from `x`. -/
def tryExcept {α : Type} (x : M α) (h : M α) : M α := fun s =>
  match x s with
  | (none, s1, ev1) =>
    match h s1 with
    | (r, s2, ev2) => (r, s2, ev1 ++ ev2)
  | r => r

/-- `try: x except Exception: h finally: fin` with an infallible, eventless
`finally` block. -/
def tryExceptFinally (x : M Unit) (h : M Unit) (fin : St → St) : M Unit := fun s =>
  match tryExcept x h s with
  | (r, s1, ev1) => (r, fin s1, ev1)

/-! ## The fallible primitives used by `CloneThread.run` -/

/-- `tempfile.mkdtemp()`: create the fresh working directory and return it. -/
def mkdtemp (cfg : Config) : M String :=
  attemptGet (fun s => some (cfg.tempName, { s with fs := s.fs.mkdir cfg.tempName }))

/-- `self.temp_dir = t`. -/
def setTempDir (t : String) : M Unit :=
  modifySt (fun s => { s with tempDir := some t })

/-- Create a file at `p`: models `project.write(p)` and
`layer.saveNamedStyle(p)` (file-producing host calls whose failure raises). -/
def createFile (p : String) : M Unit :=
  attemptGet (fun s => some ((), { s with fs := s.fs.addFile p }))

/-- `shutil.copy2(src, dst)` with `dst` a full file path; raises when the
source is not a regular file. -/
def copy2 (src dst : String) : M Unit :=
  attemptGet (fun s =>
    if s.fs.isFile src then some ((), { s with fs := s.fs.addFile dst }) else none)

/-- `QgsLayerDefinition.writeLayer(layer, p)`: succeeds or raises according to
the layer's `defWriteOk`; it is not an oracle-indexed filesystem fault because
the surrounding code catches its exceptions. -/
def qgsWriteLayer (l : Layer) (p : String) : M Unit := fun s =>
  if l.defWriteOk then (some (), { s with fs := s.fs.addFile p }, []) else (none, s, [])

/-- `zipfile.ZipFile(p, 'w', ZIP_DEFLATED)`: create the archive file and start
with an empty entry list. -/
def zipOpen (p : String) : M Unit :=
  attemptGet (fun s =>
    some ((), { s with fs := s.fs.addFile p, archive := some [] }))

/-- `zipf.write(src, arc)`: append an entry named `arc`; raises when `src`
does not exist. -/
def zipWrite (src arc : String) : M Unit :=
  attemptGet (fun s =>
    if s.fs.isFile src then
      some ((), { s with archive := s.archive.map (fun es => es ++ [arc]) })
    else none)

/-- `open(metadata_file, 'w')` + `json.dump(metadata, f)`: write the manifest
into the working area and record its contents. -/
def writeMetadataFile (cfg : Config) (t : String) : M Unit :=
  attemptGet (fun s =>
    some ((), { s with
      fs := s.fs.addFile (joinPath t "metadata.json"),
      metadataOut := some ⟨cfg.created, cfg.qgisVersion, cfg.layers.length,
        cfg.include_data⟩ }))

/-! ## The pipeline (`CloneThread.run` and `_copy_associated_files`) -/

/-- The inner loop of `_copy_associated_files`: for each directory entry `f`
(from a single `os.listdir` call), if it starts with the base name and is a
regular file, copy it into `dest_dir` under its own name. -/
def copyEntries (base_dir base_name dest_dir : String) : List String → M Unit
  | [] => M.pure ()
  | f :: rest => do
    if pyStartsWith f base_name then
      let full := joinPath base_dir f
      let s ← getSt
      if s.fs.isFile full then
        copy2 full (joinPath dest_dir (basename full))
      else M.pure ()
    else M.pure ()
    copyEntries base_dir base_name dest_dir rest

/-- `CloneThread._copy_associated_files(source_file, dest_dir)`. -/
def copyAssociatedFiles (source_file dest_dir : String) : M Unit := do
  let base_name := (splitext (basename source_file)).1
  let base_dir := dirname source_file
  let s ← getSt
  copyEntries base_dir base_name dest_dir (s.fs.listdir base_dir)

/-- One iteration of the layer loop of `CloneThread.run` (lines 62–89),
threading the accumulated `layer_files` list. -/
def processLayer (cfg : Config) (t : String) (l : Layer) (files : List String) :
    M (List String) :=
  if l.isVector || l.isRaster then do
    let layer_name := sanitize_filename l.name
    emit (Event.status ("Processing layer: " ++ layer_name))
    let source := l.source
    let s ← getSt
    let files ←
      if cfg.include_data && s.fs.isFile source then do
        let dest_file := joinPath t (layer_name ++ (splitext source).2)
        copy2 source dest_file
        let files := files ++ [dest_file]
        copyAssociatedFiles source t
        M.pure files
      else M.pure files
    let style_file := joinPath t (layer_name ++ ".qml")
    createFile style_file
    let files := files ++ [style_file]
    if l.isVector then
      tryExcept
        (do
          let layer_def_file := joinPath t (layer_name ++ ".qlr")
          if cfg.hasWriteLayer then do
            qgsWriteLayer l layer_def_file
            M.pure (files ++ [layer_def_file])
          else M.pure files)
        (M.pure files)
    else M.pure files
  else M.pure files

/-- The layer loop (`for i, layer in enumerate(layers.values(), start=1)`),
with the progress interpolation `int(10 + (i / total_layers) * 80)` modelled
as exact truncation. -/
def processLayers (cfg : Config) (t : String) (total : Nat) :
    List Layer → Nat → List String → M (List String)
  | [], _, files => M.pure files
  | l :: rest, i, files => do
    emit (Event.progress (10 + (80 * i) / total))
    let files ← processLayer cfg t l files
    processLayers cfg t total rest (i + 1) files

/-- The packaging stage (lines 92–108): open the archive, add the snapshot,
add every file in `layer_files` under its base name, then write and add the
manifest. -/
def zipWriteAll : List String → M Unit
  | [] => M.pure ()
  | p :: rest => do
    zipWrite p (basename p)
    zipWriteAll rest

def zipPhase (cfg : Config) (t : String) (project_backup : String)
    (layer_files : List String) : M Unit := do
  emit (Event.status "Creating ZIP package...")
  zipOpen cfg.output_path
  zipWrite project_backup "project.qgz"
  zipWriteAll layer_files
  writeMetadataFile cfg t
  zipWrite (joinPath t "metadata.json") "metadata.json"

/-- Lines 48–112 of `CloneThread.run`: everything after the precondition
check succeeded (snapshot, layer loop, packaging, success signals). -/
def runBodyMain (cfg : Config) (t : String) : M Unit := do
  emit (Event.status "Backing up project file...")
  let project_backup := joinPath t "project.qgz"
  createFile project_backup
  emit (Event.progress 10)
  let layer_files ← processLayers cfg t cfg.layers.length cfg.layers 1 []
  zipPhase cfg t project_backup layer_files
  emit (Event.progress 100)
  emit (Event.status "Clone completed successfully!")
  emit (Event.finished true ("Project cloned successfully to: " ++ cfg.output_path))

/-- The body of the `try:` block of `CloneThread.run`. -/
def runBody (cfg : Config) : M Unit := do
  emit (Event.status "Starting project clone...")
  let t ← mkdtemp cfg
  setTempDir t
  if cfg.projectFile = "" then
    emit (Event.finished false "No project file is currently open.")
  else
    runBodyMain cfg t

/-- The `except Exception as e:` handler: the log call has no effect on the
model; the dynamic text `str(e)` is abstracted. -/
def runHandler : M Unit :=
  emit (Event.finished false "Error during cloning: ...")

/-- The `finally:` block:
`if self.temp_dir and os.path.exists(self.temp_dir): shutil.rmtree(self.temp_dir)`. -/
def cleanup (s : St) : St :=
  match s.tempDir with
  | none => s
  | some d =>
    if d ≠ "" ∧ s.fs.pathExists d then { s with fs := s.fs.removeTree d } else s

/-- `CloneThread.run`, started on initial filesystem `fs0` with fault oracle
`faults` (`self.temp_dir` is `None` after `__init__`). -/
def CloneThread.run (cfg : Config) (fs0 : FS) (faults : Nat → Bool) :
    Option Unit × St × List Event :=
  tryExceptFinally (runBody cfg) runHandler cleanup
    { fs := fs0, tempDir := none, archive := none, metadataOut := none,
      k := 0, faults := faults }

/-- The fault oracle of a run in which no filesystem operation fails. -/
def noFaults : Nat → Bool := fun _ => false

/-! ## Observation helpers -/

/-- The sequence of values carried by `progress_updated` emissions, in order. -/
def progList (ev : List Event) : List Nat :=
  ev.filterMap (fun e => match e with
    | Event.progress n => some n
    | _ => none)

/-- The number of `finished_signal` emissions. -/
def finCount (ev : List Event) : Nat :=
  ev.countP (fun e => match e with
    | Event.finished _ _ => true
    | _ => false)

/-- The run reported success. -/
def succeeded (ev : List Event) : Prop :=
  ∃ m, Event.finished true m ∈ ev

/-- The progress value the loop emits for the `i`-th of `total` layers:
exact truncation of `10 + (i / total) * 80`. -/
def progressVal (total i : Nat) : Nat := 10 + (80 * i) / total

/-- `[i, i+1, ..., i+k-1]`. -/
def natsFrom (i : Nat) : Nat → List Nat
  | 0 => []
  | k + 1 => i :: natsFrom (i + 1) k

/-! ## Pure mirror of the fault-free layer loop

These functions compute the filesystem effect and the `layer_files` list of
the layer-export loop when no operation faults; they are proved equivalent to
the monadic loop below and are used to state archive contents. -/

/-- Mirror of `copyEntries` on the filesystem alone. -/
def pureCopyEntries (base_dir base_name dest_dir : String) :
    List String → FS → FS
  | [], fs => fs
  | f :: rest, fs =>
    let fs1 :=
      if pyStartsWith f base_name then
        if fs.isFile (joinPath base_dir f) then
          fs.addFile (joinPath dest_dir (basename (joinPath base_dir f)))
        else fs
      else fs
    pureCopyEntries base_dir base_name dest_dir rest fs1

/-- Mirror of one fault-free iteration of the layer loop: the new filesystem
and the paths this layer appends to `layer_files`. -/
def pureLayer (cfg : Config) (t : String) (l : Layer) (fs : FS) :
    FS × List String :=
  if l.isVector || l.isRaster then
    let nm := sanitize_filename l.name
    let dataStep : FS × List String :=
      if cfg.include_data && fs.isFile l.source then
        let dest := joinPath t (nm ++ (splitext l.source).2)
        let fs1 := fs.addFile dest
        (pureCopyEntries (dirname l.source) ((splitext (basename l.source)).1) t
          (fs1.listdir (dirname l.source)) fs1, [dest])
      else (fs, [])
    let fs3 := dataStep.1.addFile (joinPath t (nm ++ ".qml"))
    if l.isVector && cfg.hasWriteLayer && l.defWriteOk then
      (fs3.addFile (joinPath t (nm ++ ".qlr")),
        dataStep.2 ++ [joinPath t (nm ++ ".qml"), joinPath t (nm ++ ".qlr")])
    else (fs3, dataStep.2 ++ [joinPath t (nm ++ ".qml")])
  else (fs, [])

/-- Mirror of the whole fault-free layer loop. -/
def pureLoop (cfg : Config) (t : String) : List Layer → FS → FS × List String
  | [], fs => (fs, [])
  | l :: rest, fs =>
    let st1 := pureLayer cfg t l fs
    let st2 := pureLoop cfg t rest st1.1
    (st2.1, st1.2 ++ st2.2)

/-- The filesystem right after the snapshot stage: working directory created
and the project snapshot written into it. -/
def fsStart (cfg : Config) (fs0 : FS) : FS :=
  (fs0.mkdir cfg.tempName).addFile (joinPath cfg.tempName "project.qgz")

/-- The archive entry names contributed by the layer loop of a run with
`include_data = false`: one style entry per vector/raster layer (in
enumeration order) followed by its definition entry when the host writes one;
nothing for layers of any other kind. -/
def styleDefNames (cfg : Config) : List Layer → List String
  | [] => []
  | l :: rest =>
    (if l.isVector || l.isRaster then
      (sanitize_filename l.name ++ ".qml") ::
        (if l.isVector && cfg.hasWriteLayer && l.defWriteOk then
          [sanitize_filename l.name ++ ".qlr"]
        else [])
    else []) ++ styleDefNames cfg rest

/-- Computations whose every emission is a `status_updated` signal. -/
def StatusOnly {α : Type} (c : M α) : Prop :=
  ∀ s : St, ∀ e ∈ (c s).2.2, ∃ m, e = Event.status m

/-! ## Concrete scenarios used by counterexamples and witnesses -/

/-- A layer that is neither a vector nor a raster layer (e.g. a mesh layer). -/
def layerTerrain : Layer :=
  { name := "Terrain", source := "/data/terrain.mesh", isVector := false,
    isRaster := false, defWriteOk := true }

def cfgC1 : Config :=
  { output_path := "/out/c1.zip", include_data := false,
    projectFile := "/proj/p.qgz", layers := [layerTerrain],
    hasWriteLayer := true, tempName := "/tmp/w1",
    created := "2026-10-12T00:00:00", qgisVersion := "3.34.0" }

def fsC1 : FS :=
  { files := ["/proj/p.qgz", "/data/terrain.mesh"],
    dirs := ["/proj", "/data", "/tmp"] }

/-- The two vector layers of the spec's concrete scenario. -/
def layerRoads : Layer :=
  { name := "Roads", source := "/data/roads.shp", isVector := true,
    isRaster := false, defWriteOk := true }

def layerRivers : Layer :=
  { name := "Rivers & Lakes", source := "/data/missing.shp", isVector := true,
    isRaster := false, defWriteOk := true }

def cfgC2 : Config :=
  { output_path := "/out/clone.zip", include_data := true,
    projectFile := "/proj/p.qgz", layers := [layerRoads, layerRivers],
    hasWriteLayer := false, tempName := "/tmp/work",
    created := "2026-10-12T00:00:00", qgisVersion := "3.34.0" }

def fsC2 : FS :=
  { files := ["/data/roads.shp", "/data/roads.dbf", "/data/roads.shx",
      "/proj/p.qgz"],
    dirs := ["/data", "/proj", "/tmp", "/out"] }

/-- A run started with no project loaded (`project.fileName()` empty). -/
def cfgC3 : Config :=
  { output_path := "/out/c3.zip", include_data := true, projectFile := "",
    layers := [], hasWriteLayer := false, tempName := "/tmp/w3",
    created := "2026-10-12T00:00:00", qgisVersion := "3.34.0" }

def fsC3 : FS := { files := [], dirs := [] }

def cfgC4 : Config :=
  { output_path := "/out/c4.zip", include_data := true,
    projectFile := "/proj/p.qgz", layers := [], hasWriteLayer := false,
    tempName := "/tmp/w4", created := "2026-10-12T00:00:00",
    qgisVersion := "3.34.0" }

def fsC4 : FS := { files := ["/proj/p.qgz"], dirs := ["/proj", "/tmp"] }

def cfgC7 : Config :=
  { output_path := "/out/c7.zip", include_data := true,
    projectFile := "/proj/p.qgz", layers := [layerRoads],
    hasWriteLayer := false, tempName := "/tmp/w7",
    created := "2026-10-12T00:00:00", qgisVersion := "3.34.0" }

def fsC7 : FS :=
  { files := ["/data/roads.shp", "/data/roads.dbf", "/proj/p.qgz"],
    dirs := ["/data", "/proj", "/tmp", "/out"] }

def cfgC10 : Config :=
  { output_path := "/out/c10.zip", include_data := true,
    projectFile := "/proj/p.qgz", layers := [], hasWriteLayer := true,
    tempName := "/tmp/w10", created := "2026-10-12T00:00:00",
    qgisVersion := "3.34.0" }

def fsC10 : FS := { files := ["/proj/p.qgz"], dirs := ["/proj", "/tmp"] }

/-! ## Evaluation lemmas for the effect monad -/

theorem M.pure_apply {α : Type} (a : α) (s : St) : M.pure a s = (some a, s, []) := rfl

theorem M.bind_some {α β : Type} {x : M α} {f : α → M β} {s : St} {a : α}
    {s1 : St} {ev1 : List Event} (h : x s = (some a, s1, ev1)) :
    M.bind x f s = ((f a s1).1, (f a s1).2.1, ev1 ++ (f a s1).2.2) := by
  unfold M.bind
  rw [h]

theorem M.bind_none {α β : Type} {x : M α} {f : α → M β} {s : St}
    {s1 : St} {ev1 : List Event} (h : x s = (none, s1, ev1)) :
    M.bind x f s = (none, s1, ev1) := by
  unfold M.bind
  rw [h]

theorem emit_apply (e : Event) (s : St) : emit e s = (some (), s, [e]) := rfl

theorem getSt_apply (s : St) : getSt s = (some s, s, []) := rfl

theorem attemptGet_fault {α : Type} {f : St → Option (α × St)} {s : St}
    (h : s.faults s.k = true) :
    attemptGet f s = (none, { s with k := s.k + 1 }, []) := by
  unfold attemptGet
  rw [h]
  simp

theorem attemptGet_ok {α : Type} {f : St → Option (α × St)} {s : St} {a : α} {s1 : St}
    (h : s.faults s.k = false) (hf : f s = some (a, s1)) :
    attemptGet f s = (some a, { s1 with k := s.k + 1 }, []) := by
  unfold attemptGet
  rw [h, hf]
  simp

theorem attemptGet_raise {α : Type} {f : St → Option (α × St)} {s : St}
    (h : s.faults s.k = false) (hf : f s = none) :
    attemptGet f s = (none, { s with k := s.k + 1 }, []) := by
  unfold attemptGet
  rw [h, hf]
  simp

theorem tryExcept_some {α : Type} {x : M α} {h : M α} {s : St} {a : α}
    {s1 : St} {ev1 : List Event} (hx : x s = (some a, s1, ev1)) :
    tryExcept x h s = (some a, s1, ev1) := by
  unfold tryExcept
  rw [hx]

theorem tryExcept_none {α : Type} {x : M α} {h : M α} {s : St}
    {s1 : St} {ev1 : List Event} (hx : x s = (none, s1, ev1)) :
    tryExcept x h s = ((h s1).1, (h s1).2.1, ev1 ++ (h s1).2.2) := by
  unfold tryExcept
  rw [hx]

theorem tryExceptFinally_apply (x : M Unit) (h : M Unit) (fin : St → St) (s : St) :
    tryExceptFinally x h fin s =
      ((tryExcept x h s).1, fin (tryExcept x h s).2.1, (tryExcept x h s).2.2) := rfl

/-! ## Filesystem lemmas -/

theorem FS.isFile_iff {fs : FS} {p : String} : fs.isFile p = true ↔ p ∈ fs.files := by
  simp [FS.isFile]

theorem FS.isFile_addFile_self (fs : FS) (p : String) :
    (fs.addFile p).isFile p = true := by
  unfold FS.addFile
  split
  · simpa [FS.isFile_iff]
  · simp [FS.isFile_iff]

theorem FS.isFile_addFile_mono {fs : FS} {q : String} (p : String)
    (h : fs.isFile q = true) : (fs.addFile p).isFile q = true := by
  unfold FS.addFile
  split
  · exact h
  · rw [FS.isFile_iff] at h ⊢
    simp [h]

theorem pureCopyEntries_mono {q : String} :
    ∀ (entries : List String) (bd bn dd : String) (fs : FS),
      fs.isFile q = true →
      (pureCopyEntries bd bn dd entries fs).isFile q = true := by
  intro entries
  induction entries with
  | nil => intro bd bn dd fs h; exact h
  | cons f rest ih =>
    intro bd bn dd fs h
    unfold pureCopyEntries
    apply ih
    dsimp only
    split
    · split
      · exact FS.isFile_addFile_mono _ h
      · exact h
    · exact h

theorem pureLayer_mono {cfg : Config} {t : String} {l : Layer} {fs : FS} {q : String}
    (h : fs.isFile q = true) : (pureLayer cfg t l fs).1.isFile q = true := by
  cases hk : (l.isVector || l.isRaster) with
  | false => simpa only [pureLayer, hk, Bool.false_eq_true, if_false] using h
  | true =>
    cases hd : (cfg.include_data && fs.isFile l.source) with
    | false =>
      cases hq : (l.isVector && cfg.hasWriteLayer && l.defWriteOk) with
      | false =>
        simp only [pureLayer, hk, hd, hq, Bool.false_eq_true, if_true, if_false]
        exact FS.isFile_addFile_mono _ h
      | true =>
        simp only [pureLayer, hk, hd, hq, Bool.false_eq_true, if_true, if_false]
        exact FS.isFile_addFile_mono _ (FS.isFile_addFile_mono _ h)
    | true =>
      cases hq : (l.isVector && cfg.hasWriteLayer && l.defWriteOk) with
      | false =>
        simp only [pureLayer, hk, hd, hq, Bool.false_eq_true, if_true, if_false]
        exact FS.isFile_addFile_mono _ (pureCopyEntries_mono _ _ _ _ _
          (FS.isFile_addFile_mono _ h))
      | true =>
        simp only [pureLayer, hk, hd, hq, Bool.false_eq_true, if_true, if_false]
        exact FS.isFile_addFile_mono _
          (FS.isFile_addFile_mono _ (pureCopyEntries_mono _ _ _ _ _
            (FS.isFile_addFile_mono _ h)))

theorem pureLoop_mono {cfg : Config} {t : String} {q : String} :
    ∀ (ls : List Layer) (fs : FS), fs.isFile q = true →
      (pureLoop cfg t ls fs).1.isFile q = true := by
  intro ls
  induction ls with
  | nil => intro fs h; exact h
  | cons l rest ih =>
    intro fs h
    exact ih _ (pureLayer_mono h)

theorem pureLayer_files_exist {cfg : Config} {t : String} {l : Layer} {fs : FS} :
    ∀ p ∈ (pureLayer cfg t l fs).2, (pureLayer cfg t l fs).1.isFile p = true := by
  intro p hp
  cases hk : (l.isVector || l.isRaster) with
  | false => simp only [pureLayer, hk, Bool.false_eq_true, if_false,
      List.not_mem_nil] at hp
  | true =>
    cases hd : (cfg.include_data && fs.isFile l.source) with
    | false =>
      cases hq : (l.isVector && cfg.hasWriteLayer && l.defWriteOk) with
      | false =>
        simp only [pureLayer, hk, hd, hq, Bool.false_eq_true, if_true, if_false,
          List.nil_append, List.mem_singleton] at hp ⊢
        subst hp
        exact FS.isFile_addFile_self _ _
      | true =>
        simp only [pureLayer, hk, hd, hq, Bool.false_eq_true, if_true, if_false,
          List.nil_append, List.mem_cons, List.mem_singleton,
          List.not_mem_nil, or_false] at hp ⊢
        rcases hp with h | h
        · subst h
          exact FS.isFile_addFile_mono _ (FS.isFile_addFile_self _ _)
        · subst h
          exact FS.isFile_addFile_self _ _
    | true =>
      cases hq : (l.isVector && cfg.hasWriteLayer && l.defWriteOk) with
      | false =>
        simp only [pureLayer, hk, hd, hq, Bool.false_eq_true, if_true, if_false,
          List.mem_append, List.mem_singleton] at hp ⊢
        rcases hp with h | h
        · subst h
          exact FS.isFile_addFile_mono _
            (pureCopyEntries_mono _ _ _ _ _ (FS.isFile_addFile_self _ _))
        · subst h
          exact FS.isFile_addFile_self _ _
      | true =>
        simp only [pureLayer, hk, hd, hq, Bool.false_eq_true, if_true, if_false,
          List.mem_append, List.mem_cons, List.mem_singleton,
          List.not_mem_nil, or_false] at hp ⊢
        rcases hp with h | h | h
        · subst h
          exact FS.isFile_addFile_mono _ (FS.isFile_addFile_mono _
            (pureCopyEntries_mono _ _ _ _ _ (FS.isFile_addFile_self _ _)))
        · subst h
          exact FS.isFile_addFile_mono _ (FS.isFile_addFile_self _ _)
        · subst h
          exact FS.isFile_addFile_self _ _

theorem pureLoop_files_exist {cfg : Config} {t : String} :
    ∀ (ls : List Layer) (fs : FS), ∀ p ∈ (pureLoop cfg t ls fs).2,
      (pureLoop cfg t ls fs).1.isFile p = true := by
  intro ls
  induction ls with
  | nil => intro fs p hp; simp [pureLoop] at hp
  | cons l rest ih =>
    intro fs p hp
    simp only [pureLoop, List.mem_append] at hp ⊢
    rcases hp with h | h
    · exact pureLoop_mono _ _ (pureLayer_files_exist _ h)
    · exact ih _ _ h

/-! ## Event-list helpers -/

theorem progList_append (a b : List Event) :
    progList (a ++ b) = progList a ++ progList b :=
  List.filterMap_append a b _

theorem finCount_append (a b : List Event) :
    finCount (a ++ b) = finCount a + finCount b :=
  List.countP_append _ a b

theorem progList_nil : progList [] = [] := rfl

theorem finCount_nil : finCount [] = 0 := rfl

theorem statusOnly_events_progList {ev : List Event}
    (h : ∀ e ∈ ev, ∃ m, e = Event.status m) : progList ev = [] := by
  induction ev with
  | nil => rfl
  | cons e rest ih =>
    rcases h e (List.mem_cons_self e rest) with ⟨m, rfl⟩
    exact ih (fun x hx => h x (List.mem_cons_of_mem _ hx))

theorem statusOnly_events_finCount {ev : List Event}
    (h : ∀ e ∈ ev, ∃ m, e = Event.status m) : finCount ev = 0 := by
  induction ev with
  | nil => rfl
  | cons e rest ih =>
    rcases h e (List.mem_cons_self e rest) with ⟨m, rfl⟩
    simpa [finCount] using ih (fun x hx => h x (List.mem_cons_of_mem _ hx))

theorem statusOnly_pure {α : Type} (a : α) : StatusOnly (M.pure a) := by
  intro s e he
  simp [M.pure] at he

theorem statusOnly_emit_status (m : String) : StatusOnly (emit (Event.status m)) := by
  intro s e he
  simp only [emit, List.mem_singleton] at he
  exact ⟨m, he⟩

theorem statusOnly_getSt : StatusOnly getSt := by
  intro s e he
  simp [getSt] at he

theorem statusOnly_modifySt (f : St → St) : StatusOnly (modifySt f) := by
  intro s e he
  simp [modifySt] at he

theorem statusOnly_attemptGet {α : Type} (f : St → Option (α × St)) :
    StatusOnly (attemptGet f) := by
  intro s e he
  unfold attemptGet at he
  split at he
  · simp at he
  · split at he <;> simp at he

theorem statusOnly_qgsWriteLayer (l : Layer) (p : String) :
    StatusOnly (qgsWriteLayer l p) := by
  intro s e he
  unfold qgsWriteLayer at he
  split at he <;> simp at he

theorem statusOnly_bind {α β : Type} {x : M α} {f : α → M β}
    (hx : StatusOnly x) (hf : ∀ a, StatusOnly (f a)) : StatusOnly (M.bind x f) := by
  intro s e he
  unfold M.bind at he
  rcases h1 : x s with ⟨r1, s1, ev1⟩
  rw [h1] at he
  cases r1 with
  | none =>
    refine hx s e ?_
    rw [h1]
    exact he
  | some a =>
    dsimp only at he
    rcases h2 : f a s1 with ⟨r2, s2, ev2⟩
    rw [h2] at he
    dsimp only at he
    rcases List.mem_append.mp he with h | h
    · refine hx s e ?_
      rw [h1]
      exact h
    · refine hf a s1 e ?_
      rw [h2]
      exact h

theorem statusOnly_tryExcept {α : Type} {x h : M α}
    (hx : StatusOnly x) (hh : StatusOnly h) : StatusOnly (tryExcept x h) := by
  intro s e he
  unfold tryExcept at he
  rcases h1 : x s with ⟨r1, s1, ev1⟩
  rw [h1] at he
  cases r1 with
  | some a =>
    refine hx s e ?_
    rw [h1]
    exact he
  | none =>
    dsimp only at he
    rcases h2 : h s1 with ⟨r2, s2, ev2⟩
    rw [h2] at he
    dsimp only at he
    rcases List.mem_append.mp he with hm | hm
    · refine hx s e ?_
      rw [h1]
      exact hm
    · refine hh s1 e ?_
      rw [h2]
      exact hm

theorem statusOnly_ite {α : Type} {c : Prop} [Decidable c] {x y : M α}
    (hx : StatusOnly x) (hy : StatusOnly y) : StatusOnly (if c then x else y) := by
  split
  · exact hx
  · exact hy

theorem statusOnly_copyEntries (bd bn dd : String) :
    ∀ entries : List String, StatusOnly (copyEntries bd bn dd entries) := by
  intro entries
  induction entries with
  | nil => exact statusOnly_pure ()
  | cons f rest ih =>
    simp only [copyEntries, M.bind_def]
    refine statusOnly_ite ?_ (statusOnly_bind (statusOnly_pure ()) (fun _ => ih))
    refine statusOnly_bind statusOnly_getSt (fun s => ?_)
    refine statusOnly_ite ?_ (statusOnly_bind (statusOnly_pure ()) (fun _ => ih))
    exact statusOnly_bind (statusOnly_attemptGet _) (fun _ => ih)

theorem statusOnly_copyAssociatedFiles (sf dd : String) :
    StatusOnly (copyAssociatedFiles sf dd) := by
  simp only [copyAssociatedFiles, M.bind_def]
  exact statusOnly_bind statusOnly_getSt (fun s => statusOnly_copyEntries _ _ _ _)

theorem statusOnly_processLayer (cfg : Config) (t : String) (l : Layer)
    (files : List String) : StatusOnly (processLayer cfg t l files) := by
  unfold processLayer
  refine statusOnly_ite ?_ (statusOnly_pure files)
  simp only [M.bind_def]
  refine statusOnly_bind (statusOnly_emit_status _) (fun _ => ?_)
  refine statusOnly_bind statusOnly_getSt (fun s => ?_)
  refine statusOnly_ite ?_ ?_
  · refine statusOnly_bind (statusOnly_attemptGet _) (fun _ => ?_)
    refine statusOnly_bind (statusOnly_copyAssociatedFiles _ _) (fun _ => ?_)
    refine statusOnly_bind (statusOnly_pure _) (fun y => ?_)
    refine statusOnly_bind (statusOnly_attemptGet _) (fun _ => ?_)
    refine statusOnly_ite ?_ (statusOnly_pure _)
    refine statusOnly_tryExcept ?_ (statusOnly_pure _)
    refine statusOnly_ite ?_ (statusOnly_pure _)
    exact statusOnly_bind (statusOnly_qgsWriteLayer _ _) (fun _ => statusOnly_pure _)
  · refine statusOnly_bind (statusOnly_pure _) (fun y => ?_)
    refine statusOnly_bind (statusOnly_attemptGet _) (fun _ => ?_)
    refine statusOnly_ite ?_ (statusOnly_pure _)
    refine statusOnly_tryExcept ?_ (statusOnly_pure _)
    refine statusOnly_ite ?_ (statusOnly_pure _)
    exact statusOnly_bind (statusOnly_qgsWriteLayer _ _) (fun _ => statusOnly_pure _)

theorem statusOnly_zipWriteAll :
    ∀ paths : List String, StatusOnly (zipWriteAll paths) := by
  intro paths
  induction paths with
  | nil => exact statusOnly_pure ()
  | cons p rest ih =>
    simp only [zipWriteAll, M.bind_def]
    exact statusOnly_bind (statusOnly_attemptGet _) (fun _ => ih)

theorem statusOnly_zipPhase (cfg : Config) (t pb : String) (lf : List String) :
    StatusOnly (zipPhase cfg t pb lf) := by
  unfold zipPhase
  simp only [M.bind_def]
  refine statusOnly_bind (statusOnly_emit_status _) (fun _ => ?_)
  refine statusOnly_bind (statusOnly_attemptGet _) (fun _ => ?_)
  refine statusOnly_bind (statusOnly_attemptGet _) (fun _ => ?_)
  refine statusOnly_bind (statusOnly_zipWriteAll _) (fun _ => ?_)
  exact statusOnly_bind (statusOnly_attemptGet _)
    (fun _ => statusOnly_attemptGet _)

/-! ## `natsFrom` and the progress formula -/

theorem natsFrom_mem {m : Nat} : ∀ {i k : Nat}, m ∈ natsFrom i k → i ≤ m ∧ m < i + k := by
  intro i k
  induction k generalizing i with
  | zero => intro h; simp [natsFrom] at h
  | succ k ih =>
    intro h
    rcases List.mem_cons.mp h with h | h
    · omega
    · have := ih h
      omega

theorem progressVal_mono (total i : Nat) :
    progressVal total i ≤ progressVal total (i + 1) := by
  unfold progressVal
  have : 80 * i ≤ 80 * (i + 1) := by omega
  exact Nat.add_le_add_left (Nat.div_le_div_right this) 10

theorem progressVal_le_90 {total i : Nat} (h : i ≤ total) :
    progressVal total i ≤ 90 := by
  unfold progressVal
  rcases Nat.eq_zero_or_pos total with h0 | h0
  · subst h0
    simp
  · have h1 : 80 * i ≤ 80 * total := by omega
    have h2 : (80 * i) / total ≤ (80 * total) / total := Nat.div_le_div_right h1
    rw [Nat.mul_div_cancel 80 h0] at h2
    exact le_trans (Nat.add_le_add_left h2 10) (by norm_num)

theorem progressVal_ge_10 (total i : Nat) : 10 ≤ progressVal total i :=
  Nat.le_add_right 10 _

theorem progressVal_self {total : Nat} (h : 0 < total) :
    progressVal total total = 90 := by
  unfold progressVal
  rw [Nat.mul_div_cancel 80 h]

theorem chain'_natsFrom_map (total : Nat) :
    ∀ (k i : Nat), List.Chain' (fun a b => a ≤ b)
      ((natsFrom i k).map (progressVal total)) := by
  intro k
  induction k with
  | zero => intro i; simp [natsFrom]
  | succ k ih =>
    intro i
    cases k with
    | zero => simp [natsFrom]
    | succ k' =>
      rw [natsFrom, natsFrom, List.map_cons, List.map_cons]
      rw [List.chain'_cons]
      refine ⟨progressVal_mono total i, ?_⟩
      have := ih (i + 1)
      rwa [natsFrom, List.map_cons] at this

theorem natsFrom_map_le_90 {total k : Nat} (hk : k ≤ total) :
    ∀ v ∈ (natsFrom 1 k).map (progressVal total), v ≤ 90 := by
  intro v hv
  rcases List.mem_map.mp hv with ⟨j, hj, rfl⟩
  have := natsFrom_mem hj
  exact progressVal_le_90 (by omega)

/-! ## Case analysis of the run under an arbitrary fault oracle -/

theorem attemptGet_ev {α : Type} (f : St → Option (α × St)) (s : St) :
    (attemptGet f s).2.2 = [] := by
  unfold attemptGet
  split
  · rfl
  · split <;> rfl

theorem mkdtemp_cases (cfg : Config) (s : St) :
    mkdtemp cfg s = (none, { s with k := s.k + 1 }, []) ∨
    mkdtemp cfg s = (some cfg.tempName,
      { s with fs := s.fs.mkdir cfg.tempName, k := s.k + 1 }, []) := by
  unfold mkdtemp attemptGet
  cases h : s.faults s.k
  · right
    simp only [h, Bool.false_eq_true, if_false]
  · left
    simp only [h, if_true]

theorem createFile_cases (p : String) (s : St) :
    createFile p s = (none, { s with k := s.k + 1 }, []) ∨
    createFile p s = (some (),
      { s with fs := s.fs.addFile p, k := s.k + 1 }, []) := by
  unfold createFile attemptGet
  cases h : s.faults s.k
  · right
    simp only [h, Bool.false_eq_true, if_false]
  · left
    simp only [h, if_true]

theorem setTempDir_apply (t : String) (s : St) :
    setTempDir t s = (some (), { s with tempDir := some t }, []) := rfl

theorem option_unit_cases (o : Option Unit) : o = none ∨ o = some () := by
  cases o with
  | none => exact Or.inl rfl
  | some u => cases u; exact Or.inr rfl

/-- Trichotomy of the layer loop: it either raises after having emitted the
progress values for the first `k` entered iterations, or it returns with the
full progress sequence; it never emits a `finished` signal. -/
theorem processLayers_cases (cfg : Config) (t : String) (total : Nat) :
    ∀ (ls : List Layer) (i : Nat) (files : List String) (s : St),
      (∃ k, k ≤ ls.length ∧ (processLayers cfg t total ls i files s).1 = none ∧
        progList (processLayers cfg t total ls i files s).2.2 =
          (natsFrom i k).map (progressVal total) ∧
        finCount (processLayers cfg t total ls i files s).2.2 = 0) ∨
      (∃ fl, (processLayers cfg t total ls i files s).1 = some fl ∧
        progList (processLayers cfg t total ls i files s).2.2 =
          (natsFrom i ls.length).map (progressVal total) ∧
        finCount (processLayers cfg t total ls i files s).2.2 = 0) := by
  intro ls
  induction ls with
  | nil =>
    intro i files s
    right
    exact ⟨files, rfl, rfl, rfl⟩
  | cons l rest ih =>
    intro i files s
    have heq : processLayers cfg t total (l :: rest) i files =
        M.bind (emit (Event.progress (10 + (80 * i) / total)))
          (fun _ => M.bind (processLayer cfg t l files)
            (fun files1 => processLayers cfg t total rest (i + 1) files1)) := rfl
    rw [heq, M.bind_some (emit_apply _ s)]
    have hevPL : ∀ e ∈ (processLayer cfg t l files s).2.2, ∃ m, e = Event.status m :=
      statusOnly_processLayer cfg t l files s
    have hprogPL : progList (processLayer cfg t l files s).2.2 = [] :=
      statusOnly_events_progList hevPL
    have hfinPL : finCount (processLayer cfg t l files s).2.2 = 0 :=
      statusOnly_events_finCount hevPL
    cases hr : (processLayer cfg t l files s).1 with
    | none =>
      have htup : processLayer cfg t l files s =
          (none, (processLayer cfg t l files s).2.1,
            (processLayer cfg t l files s).2.2) := by
        rw [← hr]
      rw [M.bind_none htup]
      left
      refine ⟨1, by simp, rfl, ?_, ?_⟩
      · rw [progList_append, hprogPL]
        simp [progList, natsFrom, progressVal]
      · rw [finCount_append, hfinPL]
        simp [finCount]
    | some files1 =>
      have htup : processLayer cfg t l files s =
          (some files1, (processLayer cfg t l files s).2.1,
            (processLayer cfg t l files s).2.2) := by
        rw [← hr]
      rw [M.bind_some htup]
      rcases ih (i + 1) files1 (processLayer cfg t l files s).2.1 with
        ⟨k, hk, hnone, hprog, hfin⟩ | ⟨fl, hsome, hprog, hfin⟩
      · left
        refine ⟨k + 1, by simpa using Nat.succ_le_succ hk, hnone, ?_, ?_⟩
        · rw [progList_append, progList_append, hprogPL, hprog]
          simp [progList, natsFrom, progressVal]
        · rw [finCount_append, finCount_append, hfinPL, hfin]
          simp [finCount]
      · right
        refine ⟨fl, hsome, ?_, ?_⟩
        · rw [progList_append, progList_append, hprogPL, hprog]
          simp [progList, natsFrom, progressVal]
        · rw [finCount_append, finCount_append, hfinPL, hfin]
          simp [finCount]

theorem progList_cons_status (m : String) (ev : List Event) :
    progList (Event.status m :: ev) = progList ev := rfl

theorem progList_cons_progress (n : Nat) (ev : List Event) :
    progList (Event.progress n :: ev) = n :: progList ev := rfl

theorem progList_cons_finished (b : Bool) (m : String) (ev : List Event) :
    progList (Event.finished b m :: ev) = progList ev := rfl

theorem finCount_cons_status (m : String) (ev : List Event) :
    finCount (Event.status m :: ev) = finCount ev := rfl

theorem finCount_cons_progress (n : Nat) (ev : List Event) :
    finCount (Event.progress n :: ev) = finCount ev := rfl

theorem finCount_cons_finished (b : Bool) (m : String) (ev : List Event) :
    finCount (Event.finished b m :: ev) = 1 + finCount ev := by
  simp [finCount, List.countP_cons, Nat.add_comm]

theorem progList_one_status (m : String) : progList [Event.status m] = [] := rfl

theorem progList_one_progress (n : Nat) : progList [Event.progress n] = [n] := rfl

theorem progList_one_finished (b : Bool) (m : String) :
    progList [Event.finished b m] = [] := rfl

theorem finCount_one_status (m : String) : finCount [Event.status m] = 0 := rfl

theorem finCount_one_progress (n : Nat) : finCount [Event.progress n] = 0 := rfl

theorem finCount_one_finished (b : Bool) (m : String) :
    finCount [Event.finished b m] = 1 := rfl

/-- Case analysis of the post-precondition part of the run body, under an
arbitrary fault oracle: either it raises, having emitted no `finished`
signal and a progress prefix, or it completes with the full progress
sequence ending in `100` and the single success signal. -/
theorem runBodyMain_cases (cfg : Config) (t : String) (s : St) :
    ((runBodyMain cfg t s).1 = none ∧ finCount (runBodyMain cfg t s).2.2 = 0 ∧
      (progList (runBodyMain cfg t s).2.2 = [] ∨
        ∃ k, k ≤ cfg.layers.length ∧ progList (runBodyMain cfg t s).2.2 =
          10 :: (natsFrom 1 k).map (progressVal cfg.layers.length))) ∨
    ((runBodyMain cfg t s).1 = some () ∧ finCount (runBodyMain cfg t s).2.2 = 1 ∧
      Event.finished true ("Project cloned successfully to: " ++ cfg.output_path) ∈
        (runBodyMain cfg t s).2.2 ∧
      progList (runBodyMain cfg t s).2.2 =
        (10 :: (natsFrom 1 cfg.layers.length).map (progressVal cfg.layers.length))
          ++ [100]) := by
  unfold runBodyMain
  simp only [M.bind_def]
  rw [M.bind_some (emit_apply (Event.status "Backing up project file...") s)]
  have hevc : (createFile (joinPath t "project.qgz") s).2.2 = [] := attemptGet_ev _ _
  rcases hc : createFile (joinPath t "project.qgz") s with ⟨rc, sc, evc⟩
  rw [hc] at hevc
  dsimp only at hevc
  subst hevc
  cases rc with
  | none =>
    rw [M.bind_none hc]
    left
    refine ⟨rfl, ?_, Or.inl ?_⟩
    · simp [finCount_cons_status, finCount_nil]
    · simp [progList_cons_status, progList_nil]
  | some u =>
    cases u
    rw [M.bind_some hc]
    dsimp only
    rw [M.bind_some (emit_apply (Event.progress 10) sc)]
    have hLoop := processLayers_cases cfg t cfg.layers.length cfg.layers 1 [] sc
    rcases hL : processLayers cfg t cfg.layers.length cfg.layers 1 [] sc with
      ⟨rL, sL, evL⟩
    rw [hL] at hLoop
    dsimp only at hLoop
    rcases hLoop with ⟨k, hk, hnone, hprog, hfin⟩ | ⟨fl, hsome, hprog, hfin⟩
    · subst hnone
      rw [M.bind_none hL]
      left
      refine ⟨rfl, ?_, Or.inr ⟨k, hk, ?_⟩⟩
      · simp only [finCount_append, finCount_cons_status, finCount_cons_progress,
          finCount_nil, hfin]
      · simp only [progList_append, progList_cons_status, progList_cons_progress,
          progList_nil, hprog, List.nil_append, List.append_nil,
          List.singleton_append]
    · subst hsome
      rw [M.bind_some hL]
      dsimp only
      have hZso := statusOnly_zipPhase cfg t (joinPath t "project.qgz") fl sL
      have hZprog := statusOnly_events_progList hZso
      have hZfin := statusOnly_events_finCount hZso
      rcases hZ : zipPhase cfg t (joinPath t "project.qgz") fl sL with ⟨rZ, sZ, evZ⟩
      rw [hZ] at hZprog hZfin
      dsimp only at hZprog hZfin
      rcases option_unit_cases rZ with hz | hz
      · subst hz
        rw [M.bind_none hZ]
        left
        refine ⟨rfl, ?_, Or.inr ⟨cfg.layers.length, le_refl _, ?_⟩⟩
        · simp only [finCount_append, finCount_cons_status, finCount_cons_progress,
            finCount_nil, hfin, hZfin]
        · simp only [progList_append, progList_cons_status, progList_cons_progress,
            progList_nil, hprog, hZprog, List.nil_append, List.append_nil,
            List.singleton_append]
      · subst hz
        rw [M.bind_some hZ]
        dsimp only
        rw [M.bind_some (emit_apply (Event.progress 100) sZ)]
        rw [M.bind_some (emit_apply (Event.status "Clone completed successfully!") sZ)]
        rw [emit_apply]
        right
        refine ⟨rfl, ?_, ?_, ?_⟩
        · simp only [finCount_append, finCount_cons_status, finCount_cons_progress,
            finCount_nil, finCount_one_finished, hfin, hZfin]
        · simp [List.mem_append]
        · simp only [progList_append, progList_cons_status, progList_cons_progress,
            progList_nil, progList_one_finished, hprog, hZprog,
            List.nil_append, List.append_nil, List.singleton_append,
            List.cons_append]

theorem runHandler_apply (s : St) :
    runHandler s = (some (), s, [Event.finished false "Error during cloning: ..."]) := rfl

theorem finCount_zero_not_mem {ev : List Event} (h : finCount ev = 0)
    (b : Bool) (m : String) : Event.finished b m ∉ ev := by
  intro hmem
  have := List.countP_eq_zero.mp h _ hmem
  simp at this

/-- Case analysis of the whole `try:` body. -/
theorem runBody_cases (cfg : Config) (s0 : St) :
    ((runBody cfg s0).1 = none ∧ finCount (runBody cfg s0).2.2 = 0 ∧
      (progList (runBody cfg s0).2.2 = [] ∨
        ∃ k, k ≤ cfg.layers.length ∧ progList (runBody cfg s0).2.2 =
          10 :: (natsFrom 1 k).map (progressVal cfg.layers.length))) ∨
    ((runBody cfg s0).1 = some () ∧ finCount (runBody cfg s0).2.2 = 1 ∧
      (∀ m, Event.finished true m ∉ (runBody cfg s0).2.2) ∧
      progList (runBody cfg s0).2.2 = []) ∨
    ((runBody cfg s0).1 = some () ∧ finCount (runBody cfg s0).2.2 = 1 ∧
      Event.finished true ("Project cloned successfully to: " ++ cfg.output_path) ∈
        (runBody cfg s0).2.2 ∧
      progList (runBody cfg s0).2.2 =
        (10 :: (natsFrom 1 cfg.layers.length).map (progressVal cfg.layers.length))
          ++ [100]) := by
  unfold runBody
  simp only [M.bind_def]
  rw [M.bind_some (emit_apply (Event.status "Starting project clone...") s0)]
  rcases mkdtemp_cases cfg s0 with hm | hm
  · rw [M.bind_none hm]
    left
    refine ⟨rfl, by simp [finCount_cons_status, finCount_nil],
      Or.inl (by simp [progList_cons_status, progList_nil])⟩
  · rw [M.bind_some hm]
    dsimp only
    rw [M.bind_some (setTempDir_apply cfg.tempName _)]
    by_cases hp : cfg.projectFile = ""
    · rw [if_pos hp, emit_apply]
      right
      left
      refine ⟨rfl, ?_, ?_, ?_⟩
      · simp [finCount_cons_status, finCount_one_finished, finCount_nil]
      · intro m
        simp
      · simp [progList_cons_status, progList_one_finished, progList_nil]
    · rw [if_neg hp]
      rcases runBodyMain_cases cfg cfg.tempName
          { { s0 with fs := s0.fs.mkdir cfg.tempName, k := s0.k + 1 } with
            tempDir := some cfg.tempName } with
        ⟨hr, hfin, hprog⟩ | ⟨hr, hfin, hmem, hprog⟩
      · left
        refine ⟨hr, ?_, ?_⟩
        · simp only [finCount_cons_status, finCount_append, finCount_nil, hfin,
            Nat.add_zero, Nat.zero_add]
        · rcases hprog with h | ⟨k, hk, h⟩
          · exact Or.inl (by
              simp only [progList_cons_status, progList_append, progList_nil, h,
                List.nil_append, List.append_nil])
          · exact Or.inr ⟨k, hk, by
              simp only [progList_cons_status, progList_append, progList_nil, h,
                List.nil_append, List.append_nil]⟩
      · right
        right
        refine ⟨hr, ?_, ?_, ?_⟩
        · simp only [finCount_cons_status, finCount_append, finCount_nil, hfin,
            Nat.add_zero, Nat.zero_add]
        · simp only [List.cons_append, List.nil_append, List.mem_cons,
            List.mem_append]
          right
          exact hmem
        · simp only [progList_cons_status, progList_append, progList_nil, hprog,
            List.nil_append, List.append_nil]

/-- The run-level invariant: the result is always `some ()` (no exception
escapes `run`), exactly one `finished` signal is emitted, and the progress
trace is the full `10 … 90, 100` sequence exactly when the success signal was
emitted, and otherwise a proper prefix never containing `100`. -/
theorem run_cases (cfg : Config) (fs0 : FS) (faults : Nat → Bool) :
    (CloneThread.run cfg fs0 faults).1 = some () ∧
    finCount (CloneThread.run cfg fs0 faults).2.2 = 1 ∧
    ((Event.finished true ("Project cloned successfully to: " ++ cfg.output_path) ∈
        (CloneThread.run cfg fs0 faults).2.2 ∧
      progList (CloneThread.run cfg fs0 faults).2.2 =
        (10 :: (natsFrom 1 cfg.layers.length).map (progressVal cfg.layers.length))
          ++ [100]) ∨
     ((∀ m, Event.finished true m ∉ (CloneThread.run cfg fs0 faults).2.2) ∧
      (progList (CloneThread.run cfg fs0 faults).2.2 = [] ∨
        ∃ k, k ≤ cfg.layers.length ∧
          progList (CloneThread.run cfg fs0 faults).2.2 =
            10 :: (natsFrom 1 k).map (progressVal cfg.layers.length)))) := by
  unfold CloneThread.run
  rw [tryExceptFinally_apply]
  have hB := runBody_cases cfg
    { fs := fs0, tempDir := none, archive := none, metadataOut := none,
      k := 0, faults := faults }
  rcases hBod : runBody cfg
      { fs := fs0, tempDir := none, archive := none, metadataOut := none,
        k := 0, faults := faults } with ⟨rb, sb, evb⟩
  rw [hBod] at hB
  dsimp only at hB
  rcases hB with ⟨hr, hfin, hprog⟩ | ⟨hr, hfin, hmem, hprog⟩ | ⟨hr, hfin, hmem, hprog⟩
  · subst hr
    rw [tryExcept_none hBod, runHandler_apply]
    dsimp only
    refine ⟨rfl, ?_, Or.inr ⟨?_, ?_⟩⟩
    · simp only [finCount_append, finCount_one_finished, hfin]
    · intro m hmm
      rcases List.mem_append.mp hmm with h | h
      · exact finCount_zero_not_mem hfin true m h
      · simp at h
    · rcases hprog with h | ⟨k, hk, h⟩
      · exact Or.inl (by
          simp only [progList_append, progList_one_finished, h, List.append_nil])
      · exact Or.inr ⟨k, hk, by
          simp only [progList_append, progList_one_finished, h, List.append_nil]⟩
  · subst hr
    rw [tryExcept_some hBod]
    exact ⟨rfl, hfin, Or.inr ⟨hmem, Or.inl hprog⟩⟩
  · subst hr
    rw [tryExcept_some hBod]
    exact ⟨rfl, hfin, Or.inl ⟨hmem, hprog⟩⟩

/-! ## Cleanup lemmas -/

theorem pathExists_removeTree_self (fs : FS) (d : String) :
    (fs.removeTree d).pathExists d = false := by
  have hd : isUnder d d = true := by
    simp [isUnder]
  simp [FS.pathExists, FS.isFile, FS.isDir, FS.removeTree, List.mem_filter, hd]

theorem cleanup_removes {s : St} {d : String}
    (h1 : (cleanup s).tempDir = some d) (h2 : d ≠ "") :
    (cleanup s).fs.pathExists d = false := by
  cases hS : s.tempDir with
  | none =>
    unfold cleanup at h1 ⊢
    rw [hS] at h1 ⊢
    exact absurd (hS ▸ h1) (by simp [hS])
  | some e =>
    unfold cleanup at h1 ⊢
    rw [hS] at h1 ⊢
    dsimp only at h1 ⊢
    by_cases hc : e ≠ "" ∧ s.fs.pathExists e = true
    · rw [if_pos hc] at h1 ⊢
      dsimp only at h1 ⊢
      injection h1 with h1
      subst h1
      exact pathExists_removeTree_self s.fs e
    · rw [if_neg hc] at h1 ⊢
      rw [hS] at h1
      injection h1 with h1
      subst h1
      cases hpe : s.fs.pathExists e with
      | false => rfl
      | true => exact absurd ⟨h2, hpe⟩ hc

/-! ## Chain and bound helpers for the progress contract -/

theorem chain'_ten (total k : Nat) :
    List.Chain' (fun a b => a ≤ b)
      (10 :: (natsFrom 1 k).map (progressVal total)) := by
  cases k with
  | zero => simp [natsFrom]
  | succ k' =>
    rw [natsFrom, List.map_cons, List.chain'_cons]
    refine ⟨progressVal_ge_10 total 1, ?_⟩
    have := chain'_natsFrom_map total (k' + 1) 1
    rwa [natsFrom, List.map_cons] at this

theorem elems_le_90 {total k : Nat} (hk : k ≤ total) :
    ∀ v ∈ 10 :: (natsFrom 1 k).map (progressVal total), v ≤ 90 := by
  intro v hv
  rcases List.mem_cons.mp hv with h | h
  · omega
  · exact natsFrom_map_le_90 hk v h

theorem getLast?_ne_100 {total k : Nat} (hk : k ≤ total) :
    ((10 : Nat) :: (natsFrom 1 k).map (progressVal total)).getLast? ≠ some 100 := by
  intro hgl
  have h100 : (100 : Nat) ∈ 10 :: (natsFrom 1 k).map (progressVal total) := by
    have hin : (100 : Nat) ∈ ((10 : Nat) ::
        (natsFrom 1 k).map (progressVal total)).getLast? := hgl ▸ rfl
    rcases List.mem_getLast?_eq_getLast hin with ⟨hh, heq⟩
    rw [heq]
    exact List.getLast_mem hh
  have := elems_le_90 hk 100 h100
  omega

/-! ## Fault-free evaluation: the monadic pipeline equals the pure mirror -/

theorem copy2_ok {s : St} {src : String} (dst : String)
    (hf : s.faults s.k = false) (hisf : s.fs.isFile src = true) :
    copy2 src dst s =
      (some (), { s with fs := s.fs.addFile dst, k := s.k + 1 }, []) := by
  unfold copy2 attemptGet
  simp [hf, hisf]

theorem createFile_ok {s : St} (p : String) (hf : s.faults s.k = false) :
    createFile p s =
      (some (), { s with fs := s.fs.addFile p, k := s.k + 1 }, []) := by
  unfold createFile attemptGet
  simp [hf]

theorem mkdtemp_ok {s : St} (cfg : Config) (hf : s.faults s.k = false) :
    mkdtemp cfg s = (some cfg.tempName,
      { s with fs := s.fs.mkdir cfg.tempName, k := s.k + 1 }, []) := by
  unfold mkdtemp attemptGet
  simp [hf]

theorem zipOpen_ok {s : St} (p : String) (hf : s.faults s.k = false) :
    zipOpen p s = (some (),
      { s with fs := s.fs.addFile p, archive := some [], k := s.k + 1 }, []) := by
  unfold zipOpen attemptGet
  simp [hf]

theorem zipWrite_ok {s : St} {src : String} (arc : String)
    (hf : s.faults s.k = false) (hisf : s.fs.isFile src = true) :
    zipWrite src arc s = (some (),
      { s with archive := s.archive.map (fun es => es ++ [arc]), k := s.k + 1 },
      []) := by
  unfold zipWrite attemptGet
  simp [hf, hisf]

theorem writeMetadataFile_ok {s : St} (cfg : Config) (t : String)
    (hf : s.faults s.k = false) :
    writeMetadataFile cfg t s = (some (),
      { s with
        fs := s.fs.addFile (joinPath t "metadata.json"),
        metadataOut := some ⟨cfg.created, cfg.qgisVersion, cfg.layers.length,
          cfg.include_data⟩,
        k := s.k + 1 }, []) := by
  unfold writeMetadataFile attemptGet
  simp [hf]

theorem copyEntries_ok (bd bn dd : String) :
    ∀ (entries : List String) (s : St), (∀ n, s.faults n = false) →
      ∃ k1, copyEntries bd bn dd entries s =
        (some (), { s with fs := pureCopyEntries bd bn dd entries s.fs, k := k1 },
          []) := by
  intro entries
  induction entries with
  | nil =>
    intro s hf
    exact ⟨s.k, rfl⟩
  | cons f rest ih =>
    intro s hf
    simp only [copyEntries, M.bind_def]
    cases hst : pyStartsWith f bn with
    | false =>
      simp only [hst, Bool.false_eq_true, if_false]
      obtain ⟨k1, hrec⟩ := ih s hf
      refine ⟨k1, ?_⟩
      rw [M.bind_some (M.pure_apply () s), hrec]
      simp only [pureCopyEntries, hst, Bool.false_eq_true, if_false,
        List.nil_append]
    | true =>
      simp only [hst, if_true]
      rw [M.bind_some (getSt_apply s)]
      cases hisf : s.fs.isFile (joinPath bd f) with
      | false =>
        simp only [hisf, Bool.false_eq_true, if_false]
        obtain ⟨k1, hrec⟩ := ih s hf
        refine ⟨k1, ?_⟩
        rw [M.bind_some (M.pure_apply () s), hrec]
        simp only [pureCopyEntries, hst, hisf, Bool.false_eq_true, if_true,
          if_false, List.nil_append]
      | true =>
        simp only [hisf, if_true]
        rw [M.bind_some (copy2_ok (joinPath dd (basename (joinPath bd f)))
          (hf s.k) hisf)]
        obtain ⟨k1, hrec⟩ := ih
          { s with
            fs := s.fs.addFile (joinPath dd (basename (joinPath bd f))),
            k := s.k + 1 } hf
        refine ⟨k1, ?_⟩
        rw [hrec]
        simp only [pureCopyEntries, hst, hisf, if_true, List.nil_append]

theorem copyAssociatedFiles_ok (src dd : String) (s : St)
    (hf : ∀ n, s.faults n = false) :
    ∃ k1, copyAssociatedFiles src dd s =
      (some (), { s with
        fs := pureCopyEntries (dirname src) ((splitext (basename src)).1) dd
          (s.fs.listdir (dirname src)) s.fs, k := k1 }, []) := by
  simp only [copyAssociatedFiles, M.bind_def]
  obtain ⟨k1, hrec⟩ := copyEntries_ok (dirname src) ((splitext (basename src)).1)
    dd (s.fs.listdir (dirname src)) s hf
  refine ⟨k1, ?_⟩
  rw [M.bind_some (getSt_apply s), hrec]
  rfl

theorem qgsWriteLayer_ok {l : Layer} (p : String) (s : St)
    (h : l.defWriteOk = true) :
    qgsWriteLayer l p s = (some (), { s with fs := s.fs.addFile p }, []) := by
  unfold qgsWriteLayer
  simp [h]

theorem qgsWriteLayer_fail {l : Layer} (p : String) (s : St)
    (h : l.defWriteOk = false) :
    qgsWriteLayer l p s = (none, s, []) := by
  unfold qgsWriteLayer
  simp [h]

theorem processLayer_ok (cfg : Config) (t : String) (l : Layer)
    (files : List String) (s : St) (hf : ∀ n, s.faults n = false) :
    ∃ k1 ev, processLayer cfg t l files s =
      (some (files ++ (pureLayer cfg t l s.fs).2),
        { s with fs := (pureLayer cfg t l s.fs).1, k := k1 }, ev) := by
  cases hk : (l.isVector || l.isRaster) with
  | false =>
    refine ⟨s.k, [], ?_⟩
    simp only [processLayer, pureLayer, hk, Bool.false_eq_true, if_false,
      List.append_nil]
    rfl
  | true =>
    simp only [processLayer, hk, if_true, M.bind_def]
    rw [M.bind_some (emit_apply
      (Event.status ("Processing layer: " ++ sanitize_filename l.name)) s)]
    rw [M.bind_some (getSt_apply s)]
    cases hd : (cfg.include_data && s.fs.isFile l.source) with
    | false =>
      simp only [hd, Bool.false_eq_true, if_false]
      rw [M.bind_some (M.pure_apply files s)]
      rw [M.bind_some (createFile_ok
        (joinPath t (sanitize_filename l.name ++ ".qml")) (hf s.k))]
      cases hv : l.isVector with
      | false =>
        simp only [hv, Bool.false_eq_true, if_false]
        rw [M.pure_apply]
        simp only [pureLayer, hk, if_true]
        simp only [hd, hv, Bool.false_eq_true, Bool.false_and,
          if_true, if_false, List.nil_append]
        exact ⟨_, _, rfl⟩
      | true =>
        simp only [hv, if_true]
        cases hw : cfg.hasWriteLayer with
        | false =>
          simp only [hw, Bool.false_eq_true, if_false]
          rw [tryExcept_some (M.pure_apply _ _)]
          simp only [pureLayer, hk, if_true]
          simp only [hd, hv, hw, Bool.false_eq_true,
            Bool.true_and, Bool.false_and, Bool.and_false, if_true, if_false,
            List.nil_append]
          exact ⟨_, _, rfl⟩
        | true =>
          simp only [hw, if_true]
          cases hdw : l.defWriteOk with
          | true =>
            have hin : M.bind (qgsWriteLayer l
                (joinPath t (sanitize_filename l.name ++ ".qlr")))
                (fun _ => M.pure (files ++
                  [joinPath t (sanitize_filename l.name ++ ".qml")] ++
                  [joinPath t (sanitize_filename l.name ++ ".qlr")]))
                { s with
                  fs := s.fs.addFile
                    (joinPath t (sanitize_filename l.name ++ ".qml")),
                  k := s.k + 1 } =
                (some (files ++
                  [joinPath t (sanitize_filename l.name ++ ".qml")] ++
                  [joinPath t (sanitize_filename l.name ++ ".qlr")]),
                  { s with
                    fs := (s.fs.addFile
                      (joinPath t (sanitize_filename l.name ++ ".qml"))).addFile
                      (joinPath t (sanitize_filename l.name ++ ".qlr")),
                    k := s.k + 1 }, []) := by
              rw [M.bind_some (qgsWriteLayer_ok _ _ hdw)]
              rfl
            rw [tryExcept_some hin]
            simp only [pureLayer, hk, if_true]
            simp only [hd, hv, hw, hdw, Bool.false_eq_true,
              Bool.true_and, Bool.and_true, if_true, if_false, List.nil_append,
              List.append_assoc, List.cons_append, List.singleton_append]
            exact ⟨_, _, rfl⟩
          | false =>
            have hin : M.bind (qgsWriteLayer l
                (joinPath t (sanitize_filename l.name ++ ".qlr")))
                (fun _ => M.pure (files ++
                  [joinPath t (sanitize_filename l.name ++ ".qml")] ++
                  [joinPath t (sanitize_filename l.name ++ ".qlr")]))
                { s with
                  fs := s.fs.addFile
                    (joinPath t (sanitize_filename l.name ++ ".qml")),
                  k := s.k + 1 } =
                (none,
                  { s with
                    fs := s.fs.addFile
                      (joinPath t (sanitize_filename l.name ++ ".qml")),
                    k := s.k + 1 }, []) := by
              rw [M.bind_none (qgsWriteLayer_fail _ _ hdw)]
            rw [tryExcept_none hin]
            rw [M.pure_apply]
            simp only [pureLayer, hk, if_true]
            simp only [hd, hv, hw, hdw, Bool.false_eq_true,
              Bool.true_and, Bool.and_false, if_true, if_false, List.nil_append]
            exact ⟨_, _, rfl⟩
    | true =>
      simp only [hd, if_true]
      have hisf : s.fs.isFile l.source = true := by
        have h2 := hd
        simp only [Bool.and_eq_true] at h2
        exact h2.2
      rw [M.bind_some (copy2_ok (joinPath t
        (sanitize_filename l.name ++ (splitext l.source).2)) (hf s.k) hisf)]
      obtain ⟨k2, hca⟩ := copyAssociatedFiles_ok l.source t
        { s with
          fs := s.fs.addFile (joinPath t
            (sanitize_filename l.name ++ (splitext l.source).2)),
          k := s.k + 1 } hf
      rw [M.bind_some hca]
      rw [M.bind_some (M.pure_apply _ _)]
      rw [M.bind_some (createFile_ok
        (joinPath t (sanitize_filename l.name ++ ".qml")) (hf k2))]
      cases hv : l.isVector with
      | false =>
        simp only [hv, Bool.false_eq_true, if_false]
        rw [M.pure_apply]
        simp only [pureLayer, hk, if_true]
        simp only [hd, hv, Bool.false_eq_true, Bool.false_and,
          if_true, if_false, List.append_assoc, List.singleton_append,
          List.cons_append, List.nil_append]
        exact ⟨_, _, rfl⟩
      | true =>
        simp only [hv, if_true]
        cases hw : cfg.hasWriteLayer with
        | false =>
          simp only [hw, Bool.false_eq_true, if_false]
          rw [tryExcept_some (M.pure_apply _ _)]
          simp only [pureLayer, hk, if_true]
          simp only [hd, hv, hw, Bool.false_eq_true,
            Bool.true_and, Bool.and_false, if_true, if_false,
            List.append_assoc, List.singleton_append, List.cons_append,
            List.nil_append]
          exact ⟨_, _, rfl⟩
        | true =>
          simp only [hw, if_true]
          cases hdw : l.defWriteOk with
          | true =>
            rw [tryExcept_some (by
              rw [M.bind_some (qgsWriteLayer_ok
                (joinPath t (sanitize_filename l.name ++ ".qlr")) _ hdw)]
              rfl)]
            simp only [pureLayer, hk, if_true]
            simp only [hd, hv, hw, hdw, Bool.false_eq_true,
              Bool.true_and, Bool.and_true, if_true, if_false,
              List.append_assoc, List.singleton_append, List.cons_append,
              List.nil_append]
            exact ⟨_, _, rfl⟩
          | false =>
            rw [tryExcept_none (M.bind_none (qgsWriteLayer_fail
              (joinPath t (sanitize_filename l.name ++ ".qlr")) _ hdw))]
            rw [M.pure_apply]
            simp only [pureLayer, hk, if_true]
            simp only [hd, hv, hw, hdw, Bool.false_eq_true,
              Bool.true_and, Bool.and_false, if_true, if_false,
              List.append_assoc, List.singleton_append, List.cons_append,
              List.nil_append]
            exact ⟨_, _, rfl⟩

theorem processLayers_ok (cfg : Config) (t : String) (total : Nat) :
    ∀ (ls : List Layer) (i : Nat) (files : List String) (s : St),
      (∀ n, s.faults n = false) →
      ∃ k1 ev, processLayers cfg t total ls i files s =
        (some (files ++ (pureLoop cfg t ls s.fs).2),
          { s with fs := (pureLoop cfg t ls s.fs).1, k := k1 }, ev) := by
  intro ls
  induction ls with
  | nil =>
    intro i files s hf
    refine ⟨s.k, [], ?_⟩
    simp only [processLayers, pureLoop, List.append_nil]
    rfl
  | cons l rest ih =>
    intro i files s hf
    have heq : processLayers cfg t total (l :: rest) i files =
        M.bind (emit (Event.progress (10 + (80 * i) / total)))
          (fun _ => M.bind (processLayer cfg t l files)
            (fun files1 => processLayers cfg t total rest (i + 1) files1)) := rfl
    rw [heq, M.bind_some (emit_apply _ s)]
    obtain ⟨k1, ev1, hPL⟩ := processLayer_ok cfg t l files s hf
    rw [M.bind_some hPL]
    obtain ⟨k2, ev2, hrec⟩ := ih (i + 1) (files ++ (pureLayer cfg t l s.fs).2)
      { s with fs := (pureLayer cfg t l s.fs).1, k := k1 } hf
    rw [hrec]
    simp only [pureLoop, List.append_assoc]
    exact ⟨k2, _, rfl⟩

theorem zipWriteAll_ok :
    ∀ (paths : List String) (s : St) (es : List String),
      (∀ n, s.faults n = false) → s.archive = some es →
      (∀ p ∈ paths, s.fs.isFile p = true) →
      ∃ k1, zipWriteAll paths s =
        (some (), { s with archive := some (es ++ paths.map basename), k := k1 },
          []) := by
  intro paths
  induction paths with
  | nil =>
    intro s es hf ha hex
    obtain ⟨sfs, std, sar, smo, sk, sfl⟩ := s
    dsimp only at ha
    subst ha
    refine ⟨sk, ?_⟩
    simp only [zipWriteAll, List.map_nil, List.append_nil]
    rfl
  | cons p rest ih =>
    intro s es hf ha hex
    simp only [zipWriteAll, M.bind_def]
    rw [M.bind_some (@zipWrite_ok s p (basename p) (hf s.k)
      (hex p (List.mem_cons_self p rest)))]
    obtain ⟨k1, hrec⟩ := ih
      { s with
        archive := s.archive.map (fun es => es ++ [basename p]),
        k := s.k + 1 }
      (es ++ [basename p]) hf
      (by dsimp only; rw [ha]; rfl)
      (fun q hq => hex q (List.mem_cons_of_mem _ hq))
    rw [hrec]
    refine ⟨k1, ?_⟩
    simp only [List.map_cons, List.append_assoc, List.singleton_append,
      List.cons_append, List.nil_append]

theorem zipPhase_ok (cfg : Config) (t pb : String) (lf : List String) (s : St)
    (hf : ∀ n, s.faults n = false) (hpb : s.fs.isFile pb = true)
    (hlf : ∀ p ∈ lf, s.fs.isFile p = true) :
    ∃ k1 ev, zipPhase cfg t pb lf s = (some (),
      { s with
        fs := (s.fs.addFile cfg.output_path).addFile (joinPath t "metadata.json"),
        archive := some ("project.qgz" :: lf.map basename ++ ["metadata.json"]),
        metadataOut := some ⟨cfg.created, cfg.qgisVersion, cfg.layers.length,
          cfg.include_data⟩,
        k := k1 }, ev) := by
  unfold zipPhase
  simp only [M.bind_def]
  rw [M.bind_some (emit_apply (Event.status "Creating ZIP package...") s)]
  rw [M.bind_some (@zipOpen_ok s cfg.output_path (hf s.k))]
  rw [M.bind_some (@zipWrite_ok
    { s with fs := s.fs.addFile cfg.output_path, archive := some [], k := s.k + 1 }
    pb "project.qgz" (hf _) (FS.isFile_addFile_mono _ hpb))]
  obtain ⟨k1, hall⟩ := zipWriteAll_ok lf
    { s with
      fs := s.fs.addFile cfg.output_path,
      archive := (some []).map (fun es => es ++ ["project.qgz"]),
      k := s.k + 1 + 1 }
    ["project.qgz"] hf rfl
    (fun q hq => FS.isFile_addFile_mono _ (hlf q hq))
  rw [M.bind_some hall]
  rw [M.bind_some (@writeMetadataFile_ok
    { s with
      fs := s.fs.addFile cfg.output_path,
      archive := some (["project.qgz"] ++ lf.map basename),
      k := k1 } cfg t (hf _))]
  rw [@zipWrite_ok
    { s with
      fs := (s.fs.addFile cfg.output_path).addFile (joinPath t "metadata.json"),
      archive := some (["project.qgz"] ++ lf.map basename),
      metadataOut := some ⟨cfg.created, cfg.qgisVersion, cfg.layers.length,
        cfg.include_data⟩,
      k := k1 + 1 }
    (joinPath t "metadata.json") "metadata.json" (hf _)
    (FS.isFile_addFile_self _ _)]
  simp only [Option.map_some, List.nil_append, List.append_assoc,
    List.singleton_append, List.cons_append]
  exact ⟨_, _, rfl⟩

theorem runBody_ok (cfg : Config) (s0 : St) (hf : ∀ n, s0.faults n = false)
    (hp : cfg.projectFile ≠ "") :
    ∃ k1 ev, runBody cfg s0 = (some (),
      { s0 with
        fs := (((pureLoop cfg cfg.tempName cfg.layers
            ((s0.fs.mkdir cfg.tempName).addFile
              (joinPath cfg.tempName "project.qgz"))).1).addFile
          cfg.output_path).addFile (joinPath cfg.tempName "metadata.json"),
        tempDir := some cfg.tempName,
        archive := some ("project.qgz" ::
          (pureLoop cfg cfg.tempName cfg.layers
            ((s0.fs.mkdir cfg.tempName).addFile
              (joinPath cfg.tempName "project.qgz"))).2.map basename ++
          ["metadata.json"]),
        metadataOut := some ⟨cfg.created, cfg.qgisVersion, cfg.layers.length,
          cfg.include_data⟩,
        k := k1 }, ev) ∧
      Event.finished true ("Project cloned successfully to: " ++ cfg.output_path)
        ∈ ev := by
  unfold runBody
  simp only [M.bind_def]
  rw [M.bind_some (emit_apply (Event.status "Starting project clone...") s0)]
  rw [M.bind_some (mkdtemp_ok cfg (hf s0.k))]
  rw [M.bind_some (setTempDir_apply cfg.tempName _)]
  rw [if_neg hp]
  unfold runBodyMain
  simp only [M.bind_def]
  rw [M.bind_some (emit_apply (Event.status "Backing up project file...") _)]
  rw [M.bind_some (@createFile_ok
    { s0 with
      fs := s0.fs.mkdir cfg.tempName,
      tempDir := some cfg.tempName,
      k := s0.k + 1 }
    (joinPath cfg.tempName "project.qgz") (hf _))]
  rw [M.bind_some (emit_apply (Event.progress 10) _)]
  obtain ⟨k1, ev1, hL⟩ := processLayers_ok cfg cfg.tempName cfg.layers.length
    cfg.layers 1 []
    { s0 with
      fs := (s0.fs.mkdir cfg.tempName).addFile (joinPath cfg.tempName "project.qgz"),
      tempDir := some cfg.tempName,
      k := s0.k + 1 + 1 } hf
  rw [M.bind_some (show processLayers cfg cfg.tempName cfg.layers.length
      cfg.layers 1 []
      { s0 with
        fs := (s0.fs.mkdir cfg.tempName).addFile (joinPath cfg.tempName "project.qgz"),
        tempDir := some cfg.tempName,
        k := s0.k + 1 + 1 } = _ from hL)]
  obtain ⟨k2, ev2, hZ⟩ := zipPhase_ok cfg cfg.tempName
    (joinPath cfg.tempName "project.qgz")
    ([] ++ (pureLoop cfg cfg.tempName cfg.layers
      ((s0.fs.mkdir cfg.tempName).addFile
        (joinPath cfg.tempName "project.qgz"))).2)
    { s0 with
      fs := (pureLoop cfg cfg.tempName cfg.layers
        ((s0.fs.mkdir cfg.tempName).addFile
          (joinPath cfg.tempName "project.qgz"))).1,
      tempDir := some cfg.tempName,
      k := k1 } hf
    (pureLoop_mono _ _ (FS.isFile_addFile_self _ _))
    (by
      intro q hq
      rw [List.nil_append] at hq
      exact pureLoop_files_exist _ _ q hq)
  rw [M.bind_some (show zipPhase cfg cfg.tempName
      (joinPath cfg.tempName "project.qgz")
      ([] ++ (pureLoop cfg cfg.tempName cfg.layers
        ((s0.fs.mkdir cfg.tempName).addFile
          (joinPath cfg.tempName "project.qgz"))).2)
      { s0 with
        fs := (pureLoop cfg cfg.tempName cfg.layers
          ((s0.fs.mkdir cfg.tempName).addFile
            (joinPath cfg.tempName "project.qgz"))).1,
        tempDir := some cfg.tempName,
        k := k1 } = _ from hZ)]
  rw [M.bind_some (emit_apply (Event.progress 100) _)]
  rw [M.bind_some (emit_apply (Event.status "Clone completed successfully!") _)]
  rw [emit_apply]
  simp only [List.nil_append]
  refine ⟨_, _, rfl, ?_⟩
  simp

theorem cleanup_archive (s : St) : (cleanup s).archive = s.archive := by
  unfold cleanup
  cases s.tempDir
  · rfl
  · dsimp only
    split
    · rfl
    · rfl

theorem cleanup_metadataOut (s : St) : (cleanup s).metadataOut = s.metadataOut := by
  unfold cleanup
  cases s.tempDir
  · rfl
  · dsimp only
    split
    · rfl
    · rfl

/-- Fault-free runs with a loaded project: the run reports success, the
archive entry list is the snapshot, the base names of `layer_files` as
computed by the pure mirror of the loop, and the manifest, and the manifest
records the full layer count and the requested `include_data` flag. -/
theorem run_success (cfg : Config) (fs0 : FS) (faults : Nat → Bool)
    (hf : ∀ n, faults n = false) (hp : cfg.projectFile ≠ "") :
    (CloneThread.run cfg fs0 faults).1 = some () ∧
    (CloneThread.run cfg fs0 faults).2.1.archive =
      some ("project.qgz" ::
        (pureLoop cfg cfg.tempName cfg.layers (fsStart cfg fs0)).2.map basename
        ++ ["metadata.json"]) ∧
    (CloneThread.run cfg fs0 faults).2.1.metadataOut =
      some ⟨cfg.created, cfg.qgisVersion, cfg.layers.length, cfg.include_data⟩ ∧
    Event.finished true ("Project cloned successfully to: " ++ cfg.output_path)
      ∈ (CloneThread.run cfg fs0 faults).2.2 := by
  unfold CloneThread.run
  rw [tryExceptFinally_apply]
  obtain ⟨k1, ev, hB, hEv⟩ := runBody_ok cfg
    { fs := fs0, tempDir := none, archive := none, metadataOut := none,
      k := 0, faults := faults } (fun n => hf n) hp
  rw [tryExcept_some hB]
  refine ⟨rfl, ?_, ?_, hEv⟩
  · rw [cleanup_archive]
    try rfl
  · rw [cleanup_metadataOut]
    try rfl

/-! ## Path and sanitization helper lemmas -/

theorem takeWhile_append_all {p : Char → Bool} :
    ∀ (l1 l2 : List Char), (∀ c ∈ l1, p c = true) →
      (l1 ++ l2).takeWhile p = l1 ++ l2.takeWhile p := by
  intro l1
  induction l1 with
  | nil => intro l2 h; rfl
  | cons c cs ih =>
    intro l2 h
    rw [List.cons_append, List.takeWhile_cons, h c (List.mem_cons_self c cs)]
    rw [if_pos rfl, List.cons_append,
      ih l2 (fun x hx => h x (List.mem_cons_of_mem _ hx))]

theorem takeWhile_ne_slash_head {l : List Char} (h : l.head? = some '/') :
    l.takeWhile (fun c => c ≠ '/') = [] := by
  cases l with
  | nil => simp at h
  | cons c cs =>
    rw [List.head?_cons] at h
    injection h with h
    subst h
    rw [List.takeWhile_cons]
    simp

theorem basename_append_slash (t y : String)
    (hy : ∀ c ∈ y.data, c ≠ '/')
    (hts : t.data.reverse.takeWhile (fun c => c ≠ '/') = []) :
    basename (t ++ y) = y := by
  unfold basename
  rw [String.data_append, List.reverse_append]
  rw [takeWhile_append_all _ _
    (fun c hc => decide_eq_true (hy c (List.mem_reverse.mp hc)))]
  rw [hts, List.append_nil, List.reverse_reverse]

theorem basename_joinPath (t y : String)
    (hy : ∀ c ∈ y.data, c ≠ '/') :
    basename (joinPath t y) = y := by
  unfold joinPath
  by_cases h1 : y.data.take 1 = ['/']
  · exfalso
    cases hy0 : y.data with
    | nil => rw [hy0] at h1; exact absurd h1 (by decide)
    | cons c cs =>
      rw [hy0] at h1
      have h1' : [c] = ['/'] := h1
      injection h1' with h1
      have := hy c (by rw [hy0]; exact List.mem_cons_self c cs)
      exact this h1
  · rw [if_neg h1]
    by_cases h2 : (decide (t = "") || decide (t.data.getLast? = some '/')) = true
    · rw [if_pos h2]
      refine basename_append_slash t y hy ?_
      simp only [Bool.or_eq_true, decide_eq_true_eq] at h2
      rcases h2 with h2 | h2
      · subst h2
        rfl
      · refine takeWhile_ne_slash_head ?_
        rw [List.head?_reverse]
        exact h2
    · rw [if_neg h2]
      rw [show t ++ "/" ++ y = (t ++ "/") ++ y from by rw [String.append_assoc]]
      refine basename_append_slash (t ++ "/") y hy ?_
      refine takeWhile_ne_slash_head ?_
      rw [List.head?_reverse, String.data_append]
      have hsl : ("/" : String).data = ['/'] := rfl
      rw [hsl, List.getLast?_concat]

theorem sanitize_allowed (s : String) :
    ∀ c ∈ (sanitize_filename s).data,
      (c.isAlphanum || c = ' ' || c = '_' || c = '-') = true := by
  intro c hc
  simp only [sanitize_filename] at hc
  rcases List.mem_map.mp hc with ⟨a, ha, rfl⟩
  by_cases h : (a.isAlphanum || a = ' ' || a = '_' || a = '-') = true
  · rw [if_pos h]
    exact h
  · rw [if_neg h]
    decide

theorem sanitize_no_slash (s : String) :
    ∀ c ∈ (sanitize_filename s).data, c ≠ '/' := by
  intro c hc heq
  subst heq
  exact absurd (sanitize_allowed s '/' hc) (by decide)

theorem sanitize_ext_no_slash (s ext : String)
    (hext : ∀ c ∈ ext.data, c ≠ '/') :
    ∀ c ∈ (sanitize_filename s ++ ext).data, c ≠ '/' := by
  intro c hc
  rw [String.data_append] at hc
  rcases List.mem_append.mp hc with h | h
  · exact sanitize_no_slash s c h
  · exact hext c h

theorem qml_no_slash : ∀ c ∈ (".qml" : String).data, c ≠ '/' := by
  decide

theorem qlr_no_slash : ∀ c ∈ (".qlr" : String).data, c ≠ '/' := by
  decide

/-- With `include_data = false` the base names of the files produced by the
layer loop are exactly the style (and possible definition) entry names. -/
theorem pureLoop_styleDefNames (cfg : Config) (t : String)
    (h : cfg.include_data = false) :
    ∀ (ls : List Layer) (fs : FS),
      (pureLoop cfg t ls fs).2.map basename = styleDefNames cfg ls := by
  intro ls
  induction ls with
  | nil => intro fs; rfl
  | cons l rest ih =>
    intro fs
    simp only [pureLoop, styleDefNames, List.map_append]
    rw [ih]
    congr 1
    cases hk : (l.isVector || l.isRaster) with
    | false =>
      simp [pureLayer, hk]
    | true =>
      cases hq : (l.isVector && cfg.hasWriteLayer && l.defWriteOk) with
      | false =>
        simp only [pureLayer, hk, hq, h, Bool.false_and, Bool.false_eq_true,
          if_true, if_false, List.nil_append, List.map_cons, List.map_nil]
        rw [basename_joinPath t _ (sanitize_ext_no_slash l.name ".qml" qml_no_slash)]
      | true =>
        simp only [pureLayer, hk, hq, h, Bool.false_and, Bool.false_eq_true,
          if_true, if_false, List.nil_append, List.map_cons, List.map_nil]
        rw [basename_joinPath t _ (sanitize_ext_no_slash l.name ".qml" qml_no_slash)]
        rw [basename_joinPath t _ (sanitize_ext_no_slash l.name ".qlr" qlr_no_slash)]

/-! ## Definition-step suppression lemmas for the best-effort claim -/

theorem pureLayer_noDef {cfg : Config} {t : String} {l : Layer} {fs : FS}
    (hnd : l.isVector = false ∨ cfg.hasWriteLayer = false ∨ l.defWriteOk = false) :
    pureLayer cfg t l fs = pureLayer { cfg with hasWriteLayer := false } t l fs := by
  rcases hnd with h | h | h
  · simp [pureLayer, h]
  · simp [pureLayer, h]
  · simp [pureLayer, h]

theorem pureLoop_noDef {cfg : Config} {t : String} :
    ∀ (ls : List Layer) (fs : FS),
      (∀ l ∈ ls, l.isVector = false ∨ cfg.hasWriteLayer = false ∨
        l.defWriteOk = false) →
      pureLoop cfg t ls fs = pureLoop { cfg with hasWriteLayer := false } t ls fs := by
  intro ls
  induction ls with
  | nil => intro fs h; rfl
  | cons l rest ih =>
    intro fs h
    simp only [pureLoop]
    rw [pureLayer_noDef (h l (List.mem_cons_self l rest)),
      ih _ (fun x hx => h x (List.mem_cons_of_mem _ hx))]

theorem pureLoop_shape_noDef {cfg : Config} {t : String}
    (hnw : cfg.hasWriteLayer = false) :
    ∀ (ls : List Layer) (fs : FS), ∀ p ∈ (pureLoop cfg t ls fs).2,
      ∃ l, l ∈ ls ∧
        (p = joinPath t (sanitize_filename l.name ++ (splitext l.source).2) ∨
          p = joinPath t (sanitize_filename l.name ++ ".qml")) := by
  intro ls
  induction ls with
  | nil => intro fs p hp; simp [pureLoop] at hp
  | cons l rest ih =>
    intro fs p hp
    simp only [pureLoop, List.mem_append] at hp
    rcases hp with hp | hp
    · refine ⟨l, List.mem_cons_self l rest, ?_⟩
      cases hk : (l.isVector || l.isRaster) with
      | false => rw [pureLayer] at hp; simp [hk] at hp
      | true =>
        cases hd : (cfg.include_data && fs.isFile l.source) with
        | false =>
          simp only [pureLayer, hk, hd, hnw, Bool.and_false, Bool.false_and,
            Bool.false_eq_true, if_true, if_false, List.nil_append,
            List.mem_singleton] at hp
          exact Or.inr hp
        | true =>
          simp only [pureLayer, hk, hd, hnw, Bool.and_false, Bool.false_and,
            Bool.false_eq_true, if_true, if_false, List.mem_append,
            List.mem_singleton] at hp
          rcases hp with hp | hp
          · exact Or.inl hp
          · exact Or.inr hp
    · obtain ⟨l1, hl1, hor⟩ := ih _ p hp
      exact ⟨l1, List.mem_cons_of_mem _ hl1, hor⟩

/-! ## Filesystem lemmas for the no-project run -/

theorem isUnder_self (d : String) : isUnder d d = true := by
  simp [isUnder]

theorem FS.pathExists_mkdir_self (fs : FS) (p : String) :
    (fs.mkdir p).pathExists p = true := by
  unfold FS.pathExists FS.isDir FS.mkdir
  split
  · next h => simp [h]
  · simp

theorem removeTree_mkdir (fs0 : FS) (t : String)
    (h1 : ∀ p ∈ fs0.files, isUnder t p = false)
    (h2 : ∀ p ∈ fs0.dirs, isUnder t p = false) :
    (fs0.mkdir t).removeTree t = fs0 := by
  obtain ⟨f0, d0⟩ := fs0
  unfold FS.mkdir FS.removeTree
  dsimp only at h1 h2 ⊢
  by_cases hmem : t ∈ d0
  · have := h2 t hmem
    rw [isUnder_self] at this
    simp at this
  · rw [if_neg hmem]
    dsimp only
    congr 1
    · refine List.filter_eq_self.mpr ?_
      intro a ha
      simp [h1 a ha]
    · rw [List.filter_append]
      have hsing : List.filter (fun p => !(isUnder t p)) [t] = [] := by
        simp [isUnder_self]
      rw [hsing, List.append_nil]
      refine List.filter_eq_self.mpr ?_
      intro a ha
      simp [h2 a ha]

/-! ## Helper lemmas for the sanitization claims -/

theorem map_eq_self_of (f : Char → Char) :
    ∀ l : List Char, (∀ c ∈ l, f c = c) → l.map f = l := by
  intro l
  induction l with
  | nil => intro h; rfl
  | cons c cs ih =>
    intro h
    rw [List.map_cons, h c (List.mem_cons_self c cs),
      ih (fun x hx => h x (List.mem_cons_of_mem _ hx))]

theorem sanitize_fix (s : String)
    (h : ∀ c ∈ s.data, (c.isAlphanum || c = ' ' || c = '_' || c = '-') = true) :
    sanitize_filename s = s := by
  cases s with
  | mk l =>
    simp only [sanitize_filename]
    exact congrArg String.mk (map_eq_self_of _ l (fun c hc => if_pos (h c hc)))

/-! ## Claim theorems -/

/-- C6: every run of `CloneThread.run` returns normally (no exception escapes
the worker boundary: the top-level handler converts any error into the failure
outcome) and emits exactly one terminal `finished_signal`, success or
failure. -/
theorem C6_single_outcome (cfg : Config) (fs0 : FS) (faults : Nat → Bool) :
    (CloneThread.run cfg fs0 faults).1 = some () ∧
    finCount (CloneThread.run cfg fs0 faults).2.2 = 1 :=
  ⟨(run_cases cfg fs0 faults).1, (run_cases cfg fs0 faults).2.1⟩

/-- C4: on every exit path of `CloneThread.run` (success, precondition
failure, or any fault), if the run recorded a working-area directory then
that directory does not exist on the final filesystem: the `finally:` block
removes it. -/
theorem C4_cleanup (cfg : Config) (fs0 : FS) (faults : Nat → Bool) (d : String)
    (h1 : (CloneThread.run cfg fs0 faults).2.1.tempDir = some d)
    (h2 : d ≠ "") :
    (CloneThread.run cfg fs0 faults).2.1.fs.pathExists d = false := by
  unfold CloneThread.run at h1 ⊢
  rw [tryExceptFinally_apply] at h1 ⊢
  exact cleanup_removes h1 h2

/-- Witness for C4: a concrete fault-free run that created `/tmp/w4`; after
the run the directory is gone. -/
theorem C4_cleanup_witness :
    (CloneThread.run cfgC4 fsC4 noFaults).2.1.tempDir = some "/tmp/w4" ∧
    (CloneThread.run cfgC4 fsC4 noFaults).2.1.fs.pathExists "/tmp/w4" = false :=
  ⟨rfl, C4_cleanup cfgC4 fsC4 noFaults "/tmp/w4" rfl (by decide)⟩

/-- C8: `sanitize_filename` maps each character that is not alphanumeric, a
space, an underscore or a hyphen to an underscore and leaves every other
character unchanged; `"A/B:C"` sanitizes to `"A_B_C"`; and every character of
a sanitized string is alphanumeric, a space, an underscore or a hyphen. -/
theorem C8_sanitize :
    (∀ s : String, (sanitize_filename s).data =
      s.data.map (fun c =>
        if c.isAlphanum ∨ c = ' ' ∨ c = '_' ∨ c = '-' then c else '_')) ∧
    sanitize_filename "A/B:C" = "A_B_C" ∧
    (∀ s : String, ∀ c ∈ (sanitize_filename s).data,
      (c.isAlphanum || c = ' ' || c = '_' || c = '-') = true) := by
  refine ⟨?_, by decide, sanitize_allowed⟩
  intro s
  show s.data.map _ = s.data.map _
  refine List.map_congr_left (fun c _ => ?_)
  by_cases h : (c.isAlphanum || c = ' ' || c = '_' || c = '-') = true
  · rw [if_pos h, if_pos (by simpa [Bool.or_eq_true, decide_eq_true_eq,
      or_assoc] using h)]
  · rw [if_neg h, if_neg (fun hc => h (by
      simp only [Bool.or_eq_true, decide_eq_true_eq, or_assoc]
      exact hc))]

/-- C9: `sanitize_filename` is idempotent and length-preserving — each
character is mapped one-to-one, never dropped or expanded. -/
theorem C9_sanitize_idempotent (s : String) :
    sanitize_filename (sanitize_filename s) = sanitize_filename s ∧
    (sanitize_filename s).length = s.length := by
  refine ⟨sanitize_fix (sanitize_filename s) (sanitize_allowed s), ?_⟩
  cases s with
  | mk l =>
    show (l.map _).length = l.length
    exact List.length_map l _

/-- C5: the progress values of every run form a non-decreasing sequence
bounded by 100; on success the trace is exactly `10`, then
`10 + (80 * i) / total` for `i = 1 .. total` (the integer truncation of
`10 + (i / total) * 80`, reaching 90 at `i = total`), then `100`; the
sequence ends at 100 iff the outcome is success. -/
theorem C5_progress_contract (cfg : Config) (fs0 : FS) (faults : Nat → Bool) :
    List.Chain' (fun a b => a ≤ b)
      (progList (CloneThread.run cfg fs0 faults).2.2) ∧
    (∀ v ∈ progList (CloneThread.run cfg fs0 faults).2.2, v ≤ 100) ∧
    (succeeded (CloneThread.run cfg fs0 faults).2.2 →
      progList (CloneThread.run cfg fs0 faults).2.2 =
        (10 :: (natsFrom 1 cfg.layers.length).map
          (progressVal cfg.layers.length)) ++ [100]) ∧
    (succeeded (CloneThread.run cfg fs0 faults).2.2 ↔
      (progList (CloneThread.run cfg fs0 faults).2.2).getLast? = some 100) ∧
    (0 < cfg.layers.length →
      progressVal cfg.layers.length cfg.layers.length = 90) := by
  obtain ⟨hres, hfc, hbr⟩ := run_cases cfg fs0 faults
  rcases hbr with ⟨hmem, hprog⟩ | ⟨hnofin, hprog⟩
  · refine ⟨?_, ?_, fun h' => hprog, ⟨fun h' => ?_, fun h' => ⟨_, hmem⟩⟩,
      fun h => progressVal_self h⟩
    · rw [hprog]
      refine List.Chain'.append
        (chain'_ten cfg.layers.length cfg.layers.length)
        (List.chain'_singleton 100) ?_
      intro x hx y hy
      have hy' : y = 100 := by
        have := hy
        simp only [List.head?_cons, Option.mem_def, Option.some.injEq] at this
        omega
      subst hy'
      rcases List.mem_getLast?_eq_getLast hx with ⟨hh, heq⟩
      have hxm : x ∈ 10 :: (natsFrom 1 cfg.layers.length).map
          (progressVal cfg.layers.length) := by
        rw [heq]
        exact List.getLast_mem hh
      have := elems_le_90 (le_refl cfg.layers.length) x hxm
      omega
    · intro v hv
      rw [hprog] at hv
      rcases List.mem_append.mp hv with h | h
      · have := elems_le_90 (le_refl cfg.layers.length) v h
        omega
      · have hv100 : v = 100 := by simpa using h
        omega
    · rw [hprog, List.getLast?_concat]
  · have hnos : ¬ succeeded (CloneThread.run cfg fs0 faults).2.2 := by
      rintro ⟨m, hm⟩
      exact hnofin m hm
    refine ⟨?_, ?_, fun h => absurd h hnos,
      ⟨fun h => absurd h hnos, fun hgl => ?_⟩,
      fun h => progressVal_self h⟩
    · rcases hprog with h | ⟨k, hk, h⟩
      · rw [h]
        exact List.chain'_nil
      · rw [h]
        exact chain'_ten cfg.layers.length k
    · intro v hv
      rcases hprog with h | ⟨k, hk, h⟩
      · rw [h] at hv
        exact absurd hv (List.not_mem_nil v)
      · rw [h] at hv
        have := elems_le_90 hk v hv
        omega
    · exfalso
      rcases hprog with h | ⟨k, hk, h⟩
      · rw [h] at hgl
        simp at hgl
      · rw [h] at hgl
        exact getLast?_ne_100 hk hgl

/-- C1 counterexample: a fault-free run over one layer that is neither a
vector nor a raster layer (`layerTerrain`), with include-data false, succeeds
with an archive holding only the snapshot and the manifest — no style entry
for the layer, although the claim promises one style entry per layer of any
kind. -/
theorem C1_counterexample :
    (CloneThread.run cfgC1 fsC1 noFaults).2.1.archive =
      some ["project.qgz", "metadata.json"] ∧
    Event.finished true ("Project cloned successfully to: " ++ cfgC1.output_path)
      ∈ (CloneThread.run cfgC1 fsC1 noFaults).2.2 ∧
    (sanitize_filename layerTerrain.name ++ ".qml") ∉
      ["project.qgz", "metadata.json"] := by
  obtain ⟨h1, h2, h3, h4⟩ :=
    run_success cfgC1 fsC1 noFaults (fun n => rfl) (by decide)
  refine ⟨?_, h4, by decide⟩
  rw [h2]
  rfl

/-- C1 (amended): in a fault-free run with a project open and include-data
false, the archive holds the snapshot, then one style entry per vector or
raster layer (followed by its definition entry when the host writes one) and
nothing for layers of any other kind, then the manifest; the run succeeds. -/
theorem C1_amended (cfg : Config) (fs0 : FS) (faults : Nat → Bool)
    (hf : ∀ n, faults n = false) (hp : cfg.projectFile ≠ "")
    (hd : cfg.include_data = false) :
    (CloneThread.run cfg fs0 faults).2.1.archive =
      some ("project.qgz" :: styleDefNames cfg cfg.layers ++ ["metadata.json"]) ∧
    Event.finished true ("Project cloned successfully to: " ++ cfg.output_path)
      ∈ (CloneThread.run cfg fs0 faults).2.2 := by
  obtain ⟨h1, h2, h3, h4⟩ := run_success cfg fs0 faults hf hp
  refine ⟨?_, h4⟩
  rw [h2, pureLoop_styleDefNames cfg cfg.tempName hd cfg.layers _]

/-- Witness for the amended C1 at the concrete non-vector scenario. -/
theorem C1_amended_witness :
    (CloneThread.run cfgC1 fsC1 noFaults).2.1.archive =
      some ("project.qgz" :: styleDefNames cfgC1 cfgC1.layers
        ++ ["metadata.json"]) ∧
    Event.finished true ("Project cloned successfully to: " ++ cfgC1.output_path)
      ∈ (CloneThread.run cfgC1 fsC1 noFaults).2.2 :=
  C1_amended cfgC1 fsC1 noFaults (fun n => rfl) (by decide) rfl

/-- C2 counterexample: in the spec's concrete two-layer scenario the archive's
entries are `project.qgz`, `Roads.shp`, `Roads.qml`, `Rivers _ Lakes.qml`,
`metadata.json` — the claimed entries `roads.dbf` and `roads.shx` are absent
even though both sibling files were copied into the working area, because
`_copy_associated_files` never appends the copies to `layer_files`; the data
entry is the sanitized `Roads.shp`, not `roads.shp`. -/
theorem C2_counterexample :
    (CloneThread.run cfgC2 fsC2 noFaults).2.1.archive =
      some ["project.qgz", "Roads.shp", "Roads.qml", "Rivers _ Lakes.qml",
        "metadata.json"] ∧
    ("roads.dbf" : String) ∉ ["project.qgz", "Roads.shp", "Roads.qml",
      "Rivers _ Lakes.qml", "metadata.json"] ∧
    ("roads.shx" : String) ∉ ["project.qgz", "Roads.shp", "Roads.qml",
      "Rivers _ Lakes.qml", "metadata.json"] ∧
    (pureLoop cfgC2 cfgC2.tempName cfgC2.layers (fsStart cfgC2 fsC2)).1.isFile
      "/tmp/work/roads.dbf" = true ∧
    (pureLoop cfgC2 cfgC2.tempName cfgC2.layers (fsStart cfgC2 fsC2)).1.isFile
      "/tmp/work/roads.shx" = true ∧
    Event.finished true ("Project cloned successfully to: " ++ cfgC2.output_path)
      ∈ (CloneThread.run cfgC2 fsC2 noFaults).2.2 := by
  obtain ⟨h1, h2, h3, h4⟩ :=
    run_success cfgC2 fsC2 noFaults (fun n => rfl) (by decide)
  refine ⟨?_, by decide, by decide, rfl, rfl, h4⟩
  rw [h2]
  rfl

/-- C2 (amended): in a fault-free run with a project open, the archive holds
the snapshot under `project.qgz`, then exactly the files appended to
`layer_files` in the working area, each under its own base name, then the
manifest under `metadata.json` with the run's timestamp, host version, layer
count and include-data flag; sibling files copied by
`_copy_associated_files` land in the working area but are not archived. -/
theorem C2_amended (cfg : Config) (fs0 : FS) (faults : Nat → Bool)
    (hf : ∀ n, faults n = false) (hp : cfg.projectFile ≠ "") :
    (CloneThread.run cfg fs0 faults).2.1.archive =
      some ("project.qgz" ::
        (pureLoop cfg cfg.tempName cfg.layers (fsStart cfg fs0)).2.map basename
        ++ ["metadata.json"]) ∧
    (CloneThread.run cfg fs0 faults).2.1.metadataOut =
      some ⟨cfg.created, cfg.qgisVersion, cfg.layers.length,
        cfg.include_data⟩ ∧
    Event.finished true ("Project cloned successfully to: " ++ cfg.output_path)
      ∈ (CloneThread.run cfg fs0 faults).2.2 := by
  obtain ⟨h1, h2, h3, h4⟩ := run_success cfg fs0 faults hf hp
  exact ⟨h2, h3, h4⟩

/-- Witness for the amended C2 at the spec's two-layer scenario. -/
theorem C2_amended_witness :
    (CloneThread.run cfgC2 fsC2 noFaults).2.1.archive =
      some ("project.qgz" ::
        (pureLoop cfgC2 cfgC2.tempName cfgC2.layers (fsStart cfgC2 fsC2)).2.map
          basename ++ ["metadata.json"]) ∧
    (CloneThread.run cfgC2 fsC2 noFaults).2.1.metadataOut =
      some ⟨cfgC2.created, cfgC2.qgisVersion, cfgC2.layers.length,
        cfgC2.include_data⟩ ∧
    Event.finished true ("Project cloned successfully to: " ++ cfgC2.output_path)
      ∈ (CloneThread.run cfgC2 fsC2 noFaults).2.2 :=
  C2_amended cfgC2 fsC2 noFaults (fun n => rfl) (by decide)

/-- C3 counterexample: a fault-free run started with no project loaded still
performs file I/O before the failure outcome — `tempfile.mkdtemp()` runs
before the check, so a working area is created (`temp_dir` records it, and
the fallible-operation counter shows one operation) before
`finished_signal(False, ...)` is emitted. -/
theorem C3_counterexample :
    (CloneThread.run cfgC3 fsC3 noFaults).1 = some () ∧
    (CloneThread.run cfgC3 fsC3 noFaults).2.1.tempDir = some "/tmp/w3" ∧
    (CloneThread.run cfgC3 fsC3 noFaults).2.1.k = 1 ∧
    (CloneThread.run cfgC3 fsC3 noFaults).2.2 =
      [Event.status "Starting project clone...",
        Event.finished false "No project file is currently open."] :=
  ⟨rfl, rfl, rfl, rfl⟩

/-- C3 (amended): a fault-free run with no project loaded first creates the
working area, then reports the single terminal failure outcome without
raising; no archive or manifest is written, no progress is emitted, and the
`finally:` block removes the freshly created working area so the final
filesystem equals the initial one. -/
theorem C3_amended (cfg : Config) (fs0 : FS) (faults : Nat → Bool)
    (hf : ∀ n, faults n = false) (hp : cfg.projectFile = "")
    (ht : cfg.tempName ≠ "")
    (hfr1 : ∀ p ∈ fs0.files, isUnder cfg.tempName p = false)
    (hfr2 : ∀ p ∈ fs0.dirs, isUnder cfg.tempName p = false) :
    (CloneThread.run cfg fs0 faults).1 = some () ∧
    (CloneThread.run cfg fs0 faults).2.1.tempDir = some cfg.tempName ∧
    (CloneThread.run cfg fs0 faults).2.1.fs = fs0 ∧
    (CloneThread.run cfg fs0 faults).2.1.archive = none ∧
    (CloneThread.run cfg fs0 faults).2.1.metadataOut = none ∧
    (CloneThread.run cfg fs0 faults).2.2 =
      [Event.status "Starting project clone...",
        Event.finished false "No project file is currently open."] := by
  have hB : runBody cfg
      { fs := fs0, tempDir := none, archive := none, metadataOut := none,
        k := 0, faults := faults } =
      (some (),
        { fs := fs0.mkdir cfg.tempName, tempDir := some cfg.tempName,
          archive := none, metadataOut := none, k := 1, faults := faults },
        [Event.status "Starting project clone...",
          Event.finished false "No project file is currently open."]) := by
    unfold runBody
    simp only [M.bind_def]
    rw [M.bind_some (emit_apply (Event.status "Starting project clone...") _)]
    rw [M.bind_some (@mkdtemp_ok
      { fs := fs0, tempDir := none, archive := none, metadataOut := none,
        k := 0, faults := faults } cfg (hf 0))]
    dsimp only
    rw [M.bind_some (setTempDir_apply cfg.tempName _)]
    rw [if_pos hp, emit_apply]
    rfl
  have hcl : cleanup
      { fs := fs0.mkdir cfg.tempName, tempDir := some cfg.tempName,
        archive := none, metadataOut := none, k := 1, faults := faults } =
      { fs := fs0, tempDir := some cfg.tempName, archive := none,
        metadataOut := none, k := 1, faults := faults } := by
    unfold cleanup
    dsimp only
    rw [if_pos ⟨ht, FS.pathExists_mkdir_self fs0 cfg.tempName⟩]
    rw [removeTree_mkdir fs0 cfg.tempName hfr1 hfr2]
  unfold CloneThread.run
  rw [tryExceptFinally_apply, tryExcept_some hB]
  dsimp only
  rw [hcl]
  exact ⟨rfl, rfl, rfl, rfl, rfl, rfl⟩

/-- Witness for the amended C3 at the concrete no-project scenario. -/
theorem C3_amended_witness :
    (CloneThread.run cfgC3 fsC3 noFaults).1 = some () ∧
    (CloneThread.run cfgC3 fsC3 noFaults).2.1.tempDir = some cfgC3.tempName ∧
    (CloneThread.run cfgC3 fsC3 noFaults).2.1.fs = fsC3 ∧
    (CloneThread.run cfgC3 fsC3 noFaults).2.1.archive = none ∧
    (CloneThread.run cfgC3 fsC3 noFaults).2.1.metadataOut = none ∧
    (CloneThread.run cfgC3 fsC3 noFaults).2.2 =
      [Event.status "Starting project clone...",
        Event.finished false "No project file is currently open."] :=
  C3_amended cfgC3 fsC3 noFaults (fun n => rfl) rfl (by decide)
    (by intro p hp; simp [fsC3] at hp) (by intro p hp; simp [fsC3] at hp)

/-- C7: a fault-free run with a project open in which, for every layer, the
definition-write step does not apply (the layer is not a vector layer, the
host lacks the write capability, or the write would fail and is silently
skipped) still succeeds, its manifest keeps layer_count equal to the number
of layers, and every `layer_files` entry is a data or style path — no
definition entry exists to be archived. -/
theorem C7_best_effort (cfg : Config) (fs0 : FS) (faults : Nat → Bool)
    (hf : ∀ n, faults n = false) (hp : cfg.projectFile ≠ "")
    (hnd : ∀ l ∈ cfg.layers, l.isVector = false ∨ cfg.hasWriteLayer = false ∨
      l.defWriteOk = false) :
    (CloneThread.run cfg fs0 faults).1 = some () ∧
    Event.finished true ("Project cloned successfully to: " ++ cfg.output_path)
      ∈ (CloneThread.run cfg fs0 faults).2.2 ∧
    (CloneThread.run cfg fs0 faults).2.1.metadataOut =
      some ⟨cfg.created, cfg.qgisVersion, cfg.layers.length,
        cfg.include_data⟩ ∧
    (CloneThread.run cfg fs0 faults).2.1.archive =
      some ("project.qgz" ::
        (pureLoop { cfg with hasWriteLayer := false } cfg.tempName cfg.layers
          (fsStart cfg fs0)).2.map basename ++ ["metadata.json"]) ∧
    (∀ p ∈ (pureLoop { cfg with hasWriteLayer := false } cfg.tempName
        cfg.layers (fsStart cfg fs0)).2,
      ∃ l, l ∈ cfg.layers ∧
        (p = joinPath cfg.tempName
            (sanitize_filename l.name ++ (splitext l.source).2) ∨
          p = joinPath cfg.tempName (sanitize_filename l.name ++ ".qml"))) := by
  obtain ⟨h1, h2, h3, h4⟩ := run_success cfg fs0 faults hf hp
  refine ⟨h1, h4, h3, ?_, ?_⟩
  · rw [h2, pureLoop_noDef cfg.layers (fsStart cfg fs0) hnd]
  · exact pureLoop_shape_noDef rfl cfg.layers (fsStart cfg fs0)

/-- Witness for C7: one vector layer whose host lacks the definition-write
capability; the run succeeds with data and style entries only. -/
theorem C7_best_effort_witness :
    (CloneThread.run cfgC7 fsC7 noFaults).1 = some () ∧
    Event.finished true ("Project cloned successfully to: " ++ cfgC7.output_path)
      ∈ (CloneThread.run cfgC7 fsC7 noFaults).2.2 ∧
    (CloneThread.run cfgC7 fsC7 noFaults).2.1.metadataOut =
      some ⟨cfgC7.created, cfgC7.qgisVersion, cfgC7.layers.length,
        cfgC7.include_data⟩ ∧
    (CloneThread.run cfgC7 fsC7 noFaults).2.1.archive =
      some ("project.qgz" ::
        (pureLoop { cfgC7 with hasWriteLayer := false } cfgC7.tempName
          cfgC7.layers (fsStart cfgC7 fsC7)).2.map basename
        ++ ["metadata.json"]) ∧
    (∀ p ∈ (pureLoop { cfgC7 with hasWriteLayer := false } cfgC7.tempName
        cfgC7.layers (fsStart cfgC7 fsC7)).2,
      ∃ l, l ∈ cfgC7.layers ∧
        (p = joinPath cfgC7.tempName
            (sanitize_filename l.name ++ (splitext l.source).2) ∨
          p = joinPath cfgC7.tempName (sanitize_filename l.name ++ ".qml"))) :=
  C7_best_effort cfgC7 fsC7 noFaults (fun n => rfl) (by decide)
    (fun l hl => Or.inr (Or.inl rfl))

/-- C10: a fault-free run with a project open and zero layers succeeds: the
progress trace is exactly `[10, 100]` (the per-layer interpolation is never
emitted, so no division by a zero layer count is observable), the archive
holds exactly the snapshot and the manifest, and the manifest's layer count
is 0. -/
theorem C10_zero_layers (cfg : Config) (fs0 : FS) (faults : Nat → Bool)
    (hf : ∀ n, faults n = false) (hp : cfg.projectFile ≠ "")
    (hz : cfg.layers = []) :
    (CloneThread.run cfg fs0 faults).1 = some () ∧
    Event.finished true ("Project cloned successfully to: " ++ cfg.output_path)
      ∈ (CloneThread.run cfg fs0 faults).2.2 ∧
    (CloneThread.run cfg fs0 faults).2.1.archive =
      some ["project.qgz", "metadata.json"] ∧
    (CloneThread.run cfg fs0 faults).2.1.metadataOut =
      some ⟨cfg.created, cfg.qgisVersion, 0, cfg.include_data⟩ ∧
    progList (CloneThread.run cfg fs0 faults).2.2 = [10, 100] := by
  obtain ⟨h1, h2, h3, h4⟩ := run_success cfg fs0 faults hf hp
  refine ⟨h1, h4, ?_, ?_, ?_⟩
  · rw [h2, hz]
    rfl
  · rw [h3, hz]
    rfl
  · obtain ⟨hres, hfc, hbr⟩ := run_cases cfg fs0 faults
    rcases hbr with ⟨hmem, hprog⟩ | ⟨hnofin, hprog⟩
    · rw [hprog, hz]
      rfl
    · exact absurd h4 (hnofin _)

/-- Witness for C10 at the concrete zero-layer scenario. -/
theorem C10_zero_layers_witness :
    (CloneThread.run cfgC10 fsC10 noFaults).1 = some () ∧
    Event.finished true ("Project cloned successfully to: " ++ cfgC10.output_path)
      ∈ (CloneThread.run cfgC10 fsC10 noFaults).2.2 ∧
    (CloneThread.run cfgC10 fsC10 noFaults).2.1.archive =
      some ["project.qgz", "metadata.json"] ∧
    (CloneThread.run cfgC10 fsC10 noFaults).2.1.metadataOut =
      some ⟨cfgC10.created, cfgC10.qgisVersion, 0, cfgC10.include_data⟩ ∧
    progList (CloneThread.run cfgC10 fsC10 noFaults).2.2 = [10, 100] :=
  C10_zero_layers cfgC10 fsC10 noFaults (fun n => rfl) (by decide) rfl

end ProjectCloner
